import Mathlib

/-!
Verification development for the epoch-extraction engine of `timecourse.py`
(mripy). The Python source is embedded shallowly:

* float arithmetic is modelled exactly over `ℚ`; a value that the source
  turns into NaN (out-of-range interpolation) is modelled as `Option.none`,
  and NaN-aware reductions (`np.nanmean`) skip `none` entries;
* numpy arrays become lists: a recording is `[features][times]`, an epoch
  tensor is `[events][features][times]`;
* `OrderedDict`/`dict` becomes an association list `List (String × ℤ)`
  with Python assignment semantics (update in place, else append);
* operations that raise in Python return `Except String _`;
* the shared mutable `info` dictionary is modelled by a store
  `ℕ → List (String × IVal)` addressed by an `infoRef` field, so that the
  aliasing done by `self.info = raw.info` and by `copy.copy` is explicit.
-/

set_option maxRecDepth 100000

/-! ### Rational helpers -/

/-- Ceiling on `ℚ` via `Rat.floor`, kept kernel-computable. -/
def ratCeil (q : ℚ) : ℤ := -(Rat.floor (-q))

/-! ### numpy-style ranges (`np.arange`) -/

/-- Model of `np.arange(start, stop, step)` in exact arithmetic: the number of
elements is `⌈(stop - start) / step⌉` clamped at zero, element `i` is
`start + i * step`. -/
def arange (start stop step : ℚ) : List ℚ :=
  (List.range (Int.toNat (ratCeil ((stop - start) / step)))).map
    (fun i : ℕ => start + (i : ℚ) * step)

/-! ### Linear interpolation (`scipy.interpolate.interp1d`, kind=linear,
`bounds_error=False`, `fill_value=nan`) over sample points `(t, y)`.
Out-of-range queries yield `none` (NaN). -/

def interpLin : List (ℚ × ℚ) → ℚ → Option ℚ
  | [], _ => none
  | [(t0, y0)], x => if x = t0 then some y0 else none
  | (t0, y0) :: (t1, y1) :: rest, x =>
    if x < t0 then none
    else if x ≤ t1 then some (y0 + (y1 - y0) * (x - t0) / (t1 - t0))
    else interpLin ((t1, y1) :: rest) x

/-! ### Data model -/

/-- One event record: a row `(onset, duration, integer label)` of the
`N x 3` events array. Labels are exact integers in this program. -/
structure Ev where
  onset : ℚ
  dur : ℚ
  label : ℤ
  deriving DecidableEq, Inhabited

/-- Baseline specification: `'none'` (also Python `None`), `'all'`, or a
`(tmin, tmax)` window whose `None` bounds extend to the grid edges. -/
inductive Baseline where
  | bnone
  | ball
  | interval (lo hi : Option ℚ)
  deriving DecidableEq

/-- Values stored in the `info` dictionary of `Raw` / `Epochs` objects. -/
inductive IVal where
  | num (q : ℚ)
  | str (s : String)
  | strs (l : List String)
  | base (b : Baseline)
  | pynone
  deriving DecidableEq

/-- Continuous recording (`Raw`): per-feature rows over a shared time
vector, plus the address of its mutable `info` dictionary. -/
structure Raw where
  times : List ℚ
  data : List (List ℚ)
  infoRef : ℕ
  deriving DecidableEq, Inhabited

/-- Epoch collection (`Epochs`): tensor `[n_events][n_features][n_times]`
(entries `none` model NaN), events array, event-label dictionary, relative
time grid, and the address of the (shared) `info` dictionary. -/
structure Epochs where
  data : List (List (List (Option ℚ)))
  events : List Ev
  event_id : List (String × ℤ)
  times : List ℚ
  infoRef : ℕ
  deriving DecidableEq, Inhabited

/-! ### Association-list dictionaries with Python `dict` semantics -/

/-- Python dictionary assignment `d[k] = v`: update the entry in place if
the key exists (the first occurrence; a Python dict holds each key at most
once), else append a new entry; insertion order is kept either way. -/
def dictInsert {α : Type} : List (String × α) → String × α → List (String × α)
  | [], p => [p]
  | q :: rest, p =>
    if q.1 = p.1 then (q.1, p.2) :: rest else q :: dictInsert rest p

/-- Python dict comprehension over a list of dictionaries (later entries
with an existing key overwrite the value in place), as used by
`concatinate_epochs`. -/
def mergeDicts {α : Type} (ds : List (List (String × α))) : List (String × α) :=
  ds.foldl (fun acc d => d.foldl dictInsert acc) []

/-! ### NaN-aware reductions and baseline correction
(`create_base_corr_func`, source lines 234-257) -/

/-- Model of `np.nanmean` along the last axis: the mean of the non-NaN
entries, or NaN (`none`) when there is none. -/
def nanmean (xs : List (Option ℚ)) : Option ℚ :=
  let vs := xs.filterMap id
  if vs.length = 0 then none else some (vs.sum / (vs.length : ℚ))

/-- Elementwise subtraction with NaN propagation. -/
def osub (x c : Option ℚ) : Option ℚ :=
  match x, c with
  | some a, some b => some (a - b)
  | _, _ => none

/-- Selection `x[..., time_sel]` for the window `(tmin, tmax)` of a baseline
interval: entries of the row whose time satisfies `tmin <= t <= tmax`, with a
`None` bound extending to the corresponding grid edge. -/
def selWindow (times : List ℚ) (lo hi : Option ℚ) (x : List (Option ℚ)) :
    List (Option ℚ) :=
  ((times.zip x).filter
    (fun p => decide (lo.getD (times.headD 0) ≤ p.1)
      && decide (p.1 ≤ hi.getD (times.getLastD 0)))).map Prod.snd

/-- Interval arm of the baseline correction: subtract the NaN-ignoring mean
of the selected window from every entry of the row. -/
def interval_corr (times : List ℚ) (lo hi : Option ℚ)
    (x : List (Option ℚ)) : List (Option ℚ) :=
  x.map (fun v => osub v (nanmean (selWindow times lo hi x)))

/-- Model of `create_base_corr_func(times, baseline)` with the default
reduction `np.nanmean`; the returned function acts on one time row. -/
def create_base_corr_func (times : List ℚ) (baseline : Baseline) :
    List (Option ℚ) → List (Option ℚ) :=
  match baseline with
  | .bnone => fun x => x
  | .ball => fun x => x.map (fun v => osub v (nanmean x))
  | .interval lo hi => interval_corr times lo hi

/-! ### Epoch extraction (`Epochs.__init__`, source lines 261-287) -/

/-- Relative-time grid of `Epochs.__init__` (line 277): two branches glued
at zero when `tmin < 0 < tmax`, otherwise a single forward range. -/
def times_grid (tmin tmax dt : ℚ) : List ℚ :=
  if tmin < 0 ∧ 0 < tmax then
    (arange (-dt) (tmin - dt / 2) (-dt)).reverse ++ arange 0 (tmax + dt / 2) dt
  else arange tmin (tmax + dt / 2) dt

/-- Per-event sampling grid of line 287: `np.arange(t+tmin, t+tmax+dt/2, dt)`
(note: not `t + times_grid`). -/
def sample_grid (onset tmin tmax dt : ℚ) : List ℚ :=
  arange (onset + tmin) (onset + tmax + dt / 2) dt

/-- Sorted insertion, used to model the ascending order of `np.unique`. -/
def insertLE (x : ℤ) : List ℤ → List ℤ
  | [] => [x]
  | y :: ys => if x ≤ y then x :: y :: ys else y :: insertLE x ys

/-- Model of `_default_event_id(events)`: one entry per distinct label of
`np.unique(events[:,-1])` (ascending), named by its decimal representation. -/
def _default_event_id (events : List Ev) : List (String × ℤ) :=
  (((events.map Ev.label).foldr insertLE []).dedup).map
    (fun l => (toString l, l))

/-- Model of `Epochs.__init__` for the configuration the claims quantify
over: `interp='linear'` and `hamm=None` (no smoothing). The two Python
failure modes kept by the model are the `interp1d` constructor requirement
of at least two samples and the shape mismatch of the assignment
`self.data[k] = ...` when a sampling grid and the relative-time grid
disagree in length. The `info` side effects live in `Epochs.initS` below. -/
def Epochs.init (raw : Raw) (events : List Ev)
    (event_id : Option (List (String × ℤ))) (baseline : Baseline)
    (tmin tmax dt : ℚ) : Except String Epochs :=
  if raw.times.length < 2 then
    .error "x and y arrays must have at least 2 entries"
  else
    let times := times_grid tmin tmax dt
    let base_corr := create_base_corr_func times baseline
    if events.all
        (fun e => (sample_grid e.onset tmin tmax dt).length == times.length) then
      .ok
        { data := events.map (fun e =>
            raw.data.map (fun row =>
              base_corr ((sample_grid e.onset tmin tmax dt).map
                (interpLin (raw.times.zip row)))))
          events := events
          event_id := event_id.getD (_default_event_id events)
          times := times
          infoRef := raw.infoRef }
    else .error "could not broadcast input array"

/-- Concrete recording: two samples, one feature, the identity ramp from
`(t=0, y=0)` to `(t=10, y=10)`, so the linear interpolant is `y = t`. -/
def rawC1 : Raw := ⟨[0, 10], [[0, 10]], 0⟩

/-- Concrete events: one event with onset `5`, strictly inside `(0, 10)`. -/
def evsC1 : List Ev := [⟨5, 0, 1⟩]

/-! ### Hierarchical label matching and selection
(`Epochs._partial_match_event` lines 378-386, `Epochs.pick` lines 336-366,
`Epochs.drop_events` lines 371-376, `concatinate_epochs` lines 493-498) -/

/-- Split a list of characters at every separator, keeping empty pieces,
as Python `str.split` with an explicit separator. -/
def splitChars (sep : Char) : List Char → List (List Char)
  | [] => [[]]
  | c :: rest =>
    let r := splitChars sep rest
    if c = sep then [] :: r
    else
      match r with
      | [] => [[c]]
      | piece :: more => (c :: piece) :: more

/-- Model of `name.split('/')`. -/
def tokens (s : String) : List String := (splitChars '/' s.data).map String.mk

/-- Model of `set(key.split('/')).issubset(ev.split('/'))`: every token of
the query occurs among the tokens of the stored name (as sets, so order and
multiplicity are irrelevant). -/
def keyMatches (key ev : String) : Bool :=
  (tokens key).all (fun t => (tokens ev).contains t)

/-- Ids of the dictionary entries whose name matches one query key
(`matched_id` in `_partial_match_event`). -/
def matchedIds (eid : List (String × ℤ)) (key : String) : List ℤ :=
  (eid.filter (fun p => keyMatches key p.1)).map Prod.snd

/-- Column-wise `np.any` over a stack of boolean masks of length `n`
(`np.any(np.vstack(matched), axis=0)`). -/
def anyAcross (masks : List (List Bool)) (n : ℕ) : List Bool :=
  (List.range n).map (fun i => masks.any (fun mask => mask.getD i false))

/-- Model of `Epochs._partial_match_event(keys)` (the leading underscore
name of the source, with `partial` spelled out as `pmatch` here): one
boolean per event row, true when the label of the row belongs to the
matched ids of at least one query key. -/
def Epochs._pmatch_event (self : Epochs) (keys : List String) : List Bool :=
  anyAcross
    (keys.map (fun key =>
      self.events.map (fun e => (matchedIds self.event_id key).contains e.label)))
    self.events.length

/-- Boolean selection along the first axis of a numpy array. -/
def maskFilter {α : Type} (xs : List α) (mask : List Bool) : List α :=
  ((xs.zip mask).filter (fun p => p.2)).map Prod.fst

/-- Event-dictionary pruning after selection (line 347): keep only entries
whose id is still present in the filtered events. -/
def prune_event_id (eid : List (String × ℤ)) (evs : List Ev) :
    List (String × ℤ) :=
  eid.filter (fun p => evs.any (fun e => e.label == p.2))

/-- Model of `Epochs.pick(event=keys)` for a label-name query, with
`feature=None` and `time=None` (identity selections): a shallow copy whose
events, data rows and event dictionary are filtered by the matching mask.
The writes into the shared `info` dictionary are modelled by
`Epochs.pickS` below. -/
def Epochs.pick (self : Epochs) (keys : List String) : Epochs :=
  let mask := self._pmatch_event keys
  let events' := maskFilter self.events mask
  { self with
    events := events'
    event_id := prune_event_id self.event_id events'
    data := maskFilter self.data mask }

/-- Model of `Epochs.pick(event=mask)` for an explicit boolean mask along
the event axis (`feature=None`, `time=None`). -/
def Epochs.pick_mask (self : Epochs) (mask : List Bool) : Epochs :=
  let events' := maskFilter self.events mask
  { self with
    events := events'
    event_id := prune_event_id self.event_id events'
    data := maskFilter self.data mask }

/-- Row removal by index list, as `np.delete(arr, ids, axis=0)`. -/
def removeIdx {α : Type} (xs : List α) (ids : List ℕ) : List α :=
  ((xs.enum).filter (fun p => !(ids.contains p.1))).map Prod.snd

/-- Model of `Epochs.drop_events(ids)`. -/
def Epochs.drop_events (self : Epochs) (ids : List ℕ) : Epochs :=
  { self with
    data := removeIdx self.data ids
    events := removeIdx self.events ids
    event_id := prune_event_id self.event_id (removeIdx self.events ids) }

/-- Model of `concatinate_epochs(epochs_list)`: shallow copy of the first
collection with tensors and events concatenated in run order and the event
dictionaries merged with Python dict-update semantics. -/
def concatinate_epochs (epochs_list : List Epochs) : Epochs :=
  { epochs_list.headD default with
    data := (epochs_list.map Epochs.data).flatten
    events := (epochs_list.map Epochs.events).flatten
    event_id := mergeDicts (epochs_list.map Epochs.event_id) }

/-- Model of `Epochs.apply_baseline(baseline)` (lines 388-393): the data
tensor is baseline-corrected row by row against the current relative-time
grid; everything else is kept (the `info` update is not part of the data
claim). -/
def Epochs.apply_baseline (self : Epochs) (baseline : Baseline) : Epochs :=
  { self with
    data := self.data.map
      (fun ev => ev.map (create_base_corr_func self.times baseline)) }

/-- Combined match across query keys for one label, the pointwise content of
the mask built by `_partial_match_event`. -/
def labelHit (eid : List (String × ℤ)) (keys : List String) (lab : ℤ) : Bool :=
  keys.any (fun key => (matchedIds eid key).contains lab)

/-- Concrete collection for exercising label selection: three events under a
two-factor label dictionary. -/
def epC3 : Epochs :=
  ⟨[[[some 1]], [[some 2]], [[some 3]]],
   [⟨0, 0, 1⟩, ⟨1, 0, 2⟩, ⟨2, 0, 3⟩],
   [("Physical/Left", 1), ("Physical/Right", 2), ("Mental/Left", 3)],
   [0], 0⟩

/-! ### C7: `read_events` and inconsistent run counts
(source lines 177-215) -/

/-- One non-blank line of an AFNI-style stimulus timing file: either the
no-event marker `*` or a whitespace-separated list of onset times. -/
inductive FLine where
  | star
  | onsets (ts : List ℚ)
  deriving DecidableEq

/-- Processing of one line of condition file `eid` at run index `rid`:
for the first file every line appends a fresh run; a non-star line extends
run `rid` with its onsets and the label `eid+1`, raising an index error when
`rid` is outside the runs created by the first file. -/
def procLine (eid rid : ℕ) (line : FLine)
    (te : List (List ℚ) × List (List ℤ)) :
    Except String (List (List ℚ) × List (List ℤ)) :=
  let t := if eid = 0 then te.1 ++ [[]] else te.1
  let e := if eid = 0 then te.2 ++ [[]] else te.2
  match line with
  | .star => .ok (t, e)
  | .onsets ts =>
    if rid < t.length then
      .ok (t.set rid (t.getD rid [] ++ ts),
        e.set rid (e.getD rid [] ++ List.replicate ts.length ((eid : ℤ) + 1)))
    else .error "IndexError: list index out of range"

/-- Fold of `procLine` over the lines of one condition file. -/
def procFile (eid : ℕ) : ℕ → List FLine → List (List ℚ) × List (List ℤ) →
    Except String (List (List ℚ) × List (List ℤ))
  | _, [], te => .ok te
  | rid, line :: rest, te =>
    (procLine eid rid line te).bind (procFile eid (rid + 1) rest)

/-- Fold over the condition files, `eid` counting files from 0. -/
def procFiles : ℕ → List (String × List FLine) →
    List (List ℚ) × List (List ℤ) →
    Except String (List (List ℚ) × List (List ℤ))
  | _, [], te => .ok te
  | eid, f :: rest, te =>
    (procFile eid 0 f.2 te).bind (procFiles (eid + 1) rest)

/-- Stable insertion by onset, modelling the per-run `np.argsort` on the
onset column. -/
def insertByOnset (row : Ev) : List Ev → List Ev
  | [] => [row]
  | r :: rs =>
    if row.onset ≤ r.onset then row :: r :: rs else r :: insertByOnset row rs

/-- Ascending sort of a run by event onset. -/
def sortByOnset (l : List Ev) : List Ev := l.foldr insertByOnset []

/-- Model of `read_events(event_files)`: per-run event arrays sorted by
onset plus the name-to-label dictionary `{name: eid+1}`. -/
def read_events (event_files : List (String × List FLine)) :
    Except String (List (List Ev) × List (String × ℤ)) :=
  match procFiles 0 event_files ([], []) with
  | .error msg => .error msg
  | .ok (t, e) =>
    .ok ((List.range t.length).map (fun rid =>
        sortByOnset (((t.getD rid []).zip (e.getD rid [])).map
          (fun p => ⟨p.1, 0, p.2⟩))),
      event_files.enum.map (fun p => (p.2.1, (p.1 : ℤ) + 1)))

/-! ### Dictionary lemmas -/

/-- First-some choice on options, describing lookups through appends. -/
def optOr {α : Type} (a b : Option α) : Option α :=
  match a with
  | some v => some v
  | none => b

/-! ### Store model of the shared mutable `info` dictionaries
(C4: `Epochs.pick` and `_copy`, source lines 105-111 and 336-366;
C10: `Epochs.__init__`, source lines 261-276) -/

/-- Heap of `info` dictionaries addressed by reference. -/
def Store : Type := ℕ → List (String × IVal)

/-- Destructive update of the dictionary at one reference. -/
def storeWrite (σ : Store) (r : ℕ) (d : List (String × IVal)) : Store :=
  fun i => if i = r then d else σ i

/-- Event-axis selector of `Epochs.pick`: `None`, a label-name query, or an
explicit boolean mask. -/
inductive EvSel where
  | all
  | byNames (keys : List String)
  | byMask (mask : List Bool)

/-- Time-axis selector of `Epochs.pick`: `None` or an inclusive
`(t_lo, t_hi)` window resolved against the relative-time vector. -/
inductive TimeSel where
  | all
  | byRange (lo hi : ℚ)

/-- Model of `Epochs.pick` with its side effects on the shared `info`
dictionary (the feature axis, which has no info side effect, is left at
`None`). `inst = self.copy()` is `copy.copy`: the returned object keeps the
same `infoRef`. A name query writes `condition` into the shared dictionary
(line 343, note it writes through `self.info`); the selection then always
rewrites `tmin` and `tmax` from the (possibly time-filtered) grid
(lines 361-362). -/
def Epochs.pickS (self : Epochs) (σ : Store) (ev : EvSel) (tsel : TimeSel) :
    Store × Epochs :=
  let mask? : Option (List Bool) :=
    match ev with
    | .all => none
    | .byNames keys => some (self._pmatch_event keys)
    | .byMask m => some m
  let σ₁ :=
    match ev with
    | .byNames keys =>
      storeWrite σ self.infoRef
        (dictInsert (σ self.infoRef)
          ("condition", .str (String.intercalate " | " keys)))
    | _ => σ
  let events' :=
    match mask? with
    | none => self.events
    | some m => maskFilter self.events m
  let eid' := prune_event_id self.event_id events'
  let tmask? : Option (List Bool) :=
    match tsel with
    | .all => none
    | .byRange lo hi =>
      some (self.times.map (fun t => decide (lo ≤ t) && decide (t ≤ hi)))
  let times' :=
    match tmask? with
    | none => self.times
    | some tm => maskFilter self.times tm
  let σ₂ := storeWrite σ₁ self.infoRef
    (dictInsert
      (dictInsert (σ₁ self.infoRef) ("tmin", .num (times'.headD 0)))
      ("tmax", .num (times'.getLastD 0)))
  let data₁ :=
    match mask? with
    | none => self.data
    | some m => maskFilter self.data m
  let data' :=
    match tmask? with
    | none => data₁
    | some tm => data₁.map (fun fr => fr.map (fun row => maskFilter row tm))
  (σ₂, { self with
    data := data'
    events := events'
    event_id := eid'
    times := times' })

/-- Model of `Epochs.__init__` including its writes into the `info`
dictionary of the source recording: `self.info = raw.info` aliases the
dictionary, then `sfreq` is overwritten with `1/dt` and the epoch
configuration keys are added, all visible through the recording reference.
The data/shape part is delegated to `Epochs.init`. -/
def Epochs.initS (σ : Store) (raw : Raw) (events : List Ev)
    (event_id : Option (List (String × ℤ))) (b : Baseline)
    (tmin tmax dt : ℚ) (conditions : Option (List String)) :
    Store × Except String Epochs :=
  let d := σ raw.infoRef
  let d := dictInsert d ("sfreq", .num (1 / dt))
  let d := dictInsert d ("tmin", .num tmin)
  let d := dictInsert d ("tmax", .num tmax)
  let d := dictInsert d ("baseline", .base b)
  let d := dictInsert d ("interp", .str "linear")
  let d := dictInsert d ("hamm", .pynone)
  let d := dictInsert d ("conditions",
    match conditions with
    | some l => .strs l
    | none => .pynone)
  let d := dictInsert d ("condition", .pynone)
  (storeWrite σ raw.infoRef d, Epochs.init raw events event_id b tmin tmax dt)

/-! ### C10: `Epochs.__init__` aliases and mutates the Raw `info` -/

/-- Dictionary found at the recording's `info` reference after epoch
construction. -/
def infoAfterInit (σ : Store) (raw : Raw) (events : List Ev)
    (event_id : Option (List (String × ℤ))) (b : Baseline)
    (tmin tmax dt : ℚ) (conditions : Option (List String)) :
    List (String × IVal) :=
  (Epochs.initS σ raw events event_id b tmin tmax dt conditions).1 raw.infoRef

/-! ### C9: invariants under selection, dropping and concatenation -/

/-- Shape invariant: one tensor row per event. -/
def inv_shape (ep : Epochs) : Prop := ep.data.length = ep.events.length

/-- Label invariant: every event label has a dictionary entry. -/
def inv_labels (ep : Epochs) : Prop :=
  ∀ e ∈ ep.events, ∃ p ∈ ep.event_id, p.2 = e.label

instance (ep : Epochs) : Decidable (inv_shape ep) :=
  inferInstanceAs (Decidable (ep.data.length = ep.events.length))

instance (ep : Epochs) : Decidable (inv_labels ep) :=
  inferInstanceAs (Decidable (∀ e ∈ ep.events, ∃ p ∈ ep.event_id, p.2 = e.label))

/-- First run for the C9 counterexample: one event labelled 1 under the
name `A`. -/
def epA : Epochs := ⟨[[[some 0]]], [⟨0, 0, 1⟩], [("A", 1)], [0], 0⟩

/-- Second run for the C9 counterexample: one event labelled 2, but the
same name `A` now maps to 2. -/
def epB : Epochs := ⟨[[[some 0]]], [⟨0, 0, 2⟩], [("A", 2)], [0], 0⟩

/-- Second run for the concatenation test: same event dictionary and
relative-time grid as epC3, different events and data. -/
def epC6b : Epochs :=
  ⟨[[[some 7]], [[some 8]]],
   [⟨3, 0, 3⟩, ⟨4, 0, 2⟩],
   [("Physical/Left", 1), ("Physical/Right", 2), ("Mental/Left", 3)],
   [0], 0⟩

theorem Rat.floor_eq_intFloor (q : ℚ) : Rat.floor q = ⌊q⌋ := rfl

theorem ratCeil_eq_ceil (q : ℚ) : ratCeil q = ⌈q⌉ := by
  rw [ratCeil, Rat.floor_eq_intFloor, Int.floor_neg, neg_neg]

/-! ### List helpers -/

theorem getD_of_length_le {α : Type} (l : List α) (i : ℕ) (d : α)
    (h : l.length ≤ i) : l.getD i d = d := by
  induction l generalizing i with
  | nil => simp
  | cons a t ih =>
    cases i with
    | zero => simp at h
    | succ j => simpa using ih j (by simpa using h)

theorem getD_map_of_lt {α β : Type} (f : α → β) (l : List α) (i : ℕ)
    (d : β) (d' : α) (h : i < l.length) :
    (l.map f).getD i d = f (l.getD i d') := by
  induction l generalizing i with
  | nil => simp at h
  | cons a t ih =>
    cases i with
    | zero => simp
    | succ j => simpa using ih j (by simpa using h)

theorem getD_append_left {α : Type} (l₁ l₂ : List α) (i : ℕ) (d : α)
    (h : i < l₁.length) : (l₁ ++ l₂).getD i d = l₁.getD i d := by
  induction l₁ generalizing i with
  | nil => simp at h
  | cons a t ih =>
    cases i with
    | zero => simp
    | succ j => simpa using ih j (by simpa using h)

theorem getD_append_length {α : Type} (l₁ l₂ : List α) (d : α) :
    (l₁ ++ l₂).getD l₁.length d = l₂.getD 0 d := by
  induction l₁ with
  | nil => simp
  | cons a t ih => simpa using ih

theorem range_getD (n i : ℕ) (h : i < n) : (List.range n).getD i 0 = i := by
  rw [List.getD_eq_getElem?_getD, List.getElem?_range h]
  rfl

theorem arange_length (start stop step : ℚ) :
    (arange start stop step).length = Int.toNat (ratCeil ((stop - start) / step)) := by
  simp [arange]

theorem arange_getD (start stop step : ℚ) (i : ℕ) (d : ℚ)
    (h : i < (arange start stop step).length) :
    (arange start stop step).getD i d = start + (i : ℚ) * step := by
  rw [arange] at h ⊢
  rw [getD_map_of_lt _ _ _ _ 0 (by simpa using h)]
  rw [range_getD _ _ (by simpa using h)]

theorem interpLin_isSome (pts : List (ℚ × ℚ)) (x : ℚ)
    (hne : pts ≠ []) (hlo : (pts.headD (0, 0)).1 ≤ x)
    (hhi : x ≤ (pts.getLastD (0, 0)).1) : (interpLin pts x).isSome := by
  induction pts with
  | nil => simp at hne
  | cons p rest ih =>
    match rest with
    | [] =>
      obtain ⟨t0, y0⟩ := p
      simp only [List.headD_cons] at hlo
      simp only [List.getLastD_cons, List.getLastD_nil] at hhi
      have : x = t0 := le_antisymm hhi hlo
      simp [interpLin, this]
    | q :: rest₂ =>
      obtain ⟨t0, y0⟩ := p
      obtain ⟨t1, y1⟩ := q
      simp only [List.headD_cons] at hlo
      rw [interpLin]
      by_cases h1 : x < t0
      · exact absurd hlo (not_le.mpr h1)
      · rw [if_neg h1]
        by_cases h2 : x ≤ t1
        · rw [if_pos h2]
          rfl
        · rw [if_neg h2]
          exact ih (by simp) (by simpa using le_of_lt (not_le.mp h2))
            (by simpa [List.getLastD_cons] using hhi)

/-! ### C2: structure of the relative-time grid -/

theorem zero_mem_arange (tmax dt : ℚ) (hdt : 0 < dt) (htmax : 0 < tmax) :
    (0 : ℚ) ∈ arange 0 (tmax + dt / 2) dt := by
  have hpos : (0 : ℚ) < (tmax + dt / 2 - 0) / dt := by
    apply div_pos (by linarith) hdt
  have hceil : (0 : ℤ) < ratCeil ((tmax + dt / 2 - 0) / dt) := by
    rw [ratCeil_eq_ceil]
    exact Int.ceil_pos.mpr hpos
  have hn : 0 < Int.toNat (ratCeil ((tmax + dt / 2 - 0) / dt)) := by omega
  exact List.mem_map.mpr ⟨0, List.mem_range.mpr hn, by push_cast; ring⟩

/-- C2: for `tmin < 0 < tmax` the relative-time grid is the reversed
backward range from `-dt` to just past `tmin` glued to the forward range
from `0` to just past `tmax`, and it contains the sample `0` exactly;
otherwise it is the single forward range from `tmin` to just past `tmax`. -/
theorem c2_times_grid_structure (tmin tmax dt : ℚ) (hdt : 0 < dt) :
    (tmin < 0 → 0 < tmax →
      times_grid tmin tmax dt =
        (arange (-dt) (tmin - dt / 2) (-dt)).reverse ++ arange 0 (tmax + dt / 2) dt
      ∧ (0 : ℚ) ∈ times_grid tmin tmax dt)
    ∧ (0 ≤ tmin ∨ tmax ≤ 0 →
      times_grid tmin tmax dt = arange tmin (tmax + dt / 2) dt) := by
  constructor
  · intro h1 h2
    have hg : times_grid tmin tmax dt =
        (arange (-dt) (tmin - dt / 2) (-dt)).reverse ++ arange 0 (tmax + dt / 2) dt := by
      rw [times_grid, if_pos ⟨h1, h2⟩]
    refine ⟨hg, ?_⟩
    rw [hg]
    exact List.mem_append_right _ (zero_mem_arange tmax dt hdt h2)
  · intro h
    rw [times_grid, if_neg]
    rintro ⟨hl, hr⟩
    rcases h with h | h
    · linarith
    · linarith

unseal Rat.add Rat.mul Rat.inv Rat.sub in
theorem c2_times_grid_structure_witness :
    ((-2 : ℚ) < 0) ∧ ((0 : ℚ) < 3) ∧ ((0 : ℚ) < 1) ∧
      (times_grid (-2) 3 1 =
          (arange (-1) (-2 - 1 / 2) (-1)).reverse ++ arange 0 (3 + 1 / 2) 1
        ∧ (0 : ℚ) ∈ times_grid (-2) 3 1) :=
  ⟨by decide, by decide, by decide,
    (c2_times_grid_structure (-2) 3 1 (by decide)).1 (by decide) (by decide)⟩

/-! ### C1: epoch value at the zero grid sample -/

theorem zip_headD_fst (l₁ : List ℚ) (l₂ : List ℚ) (h₁ : l₁ ≠ []) (h₂ : l₂ ≠ []) :
    ((l₁.zip l₂).headD (0, 0)).1 = l₁.headD 0 := by
  cases l₁ with
  | nil => simp at h₁
  | cons a t =>
    cases l₂ with
    | nil => simp at h₂
    | cons b s => simp [List.zip_cons_cons]

theorem zip_getLastD_fst (l₁ : List ℚ) (l₂ : List ℚ) (a : ℚ) (b : ℚ)
    (h : l₁.length = l₂.length) :
    ((l₁.zip l₂).getLastD (a, b)).1 = l₁.getLastD a := by
  induction l₁ generalizing l₂ a b with
  | nil =>
    cases l₂ with
    | nil => simp
    | cons y s => simp at h
  | cons x t ih =>
    cases l₂ with
    | nil => simp at h
    | cons y s =>
      rw [List.zip_cons_cons, List.getLastD_cons, List.getLastD_cons]
      exact ih s x y (by simpa using h)

theorem neg_branch_length (m : ℕ) (dt : ℚ) (hdt : 0 < dt) :
    (arange (-dt) (-(m : ℚ) * dt - dt / 2) (-dt)).length = m := by
  rw [arange_length, ratCeil_eq_ceil]
  have harg : (-(m : ℚ) * dt - dt / 2 - -dt) / -dt = (m : ℚ) - 1 / 2 := by
    field_simp
    ring
  rw [harg]
  have : ⌈(m : ℚ) - 1 / 2⌉ = (m : ℤ) := by
    rw [Int.ceil_eq_iff]
    constructor
    · push_cast
      linarith
    · push_cast
      linarith
  rw [this]
  simp

theorem pos_branch_length_pos (tmax dt : ℚ) (hdt : 0 < dt) (htmax : 0 < tmax) :
    0 < (arange 0 (tmax + dt / 2) dt).length := by
  rw [arange_length, ratCeil_eq_ceil]
  have hpos : (0 : ℚ) < (tmax + dt / 2 - 0) / dt := div_pos (by linarith) hdt
  have := Int.ceil_pos.mpr hpos
  omega

theorem sample_grid_length (onset tmax dt : ℚ) (m : ℕ) (hdt : 0 < dt)
    (htmax : 0 < tmax) :
    (sample_grid onset (-(m : ℚ) * dt) tmax dt).length
      = m + (arange 0 (tmax + dt / 2) dt).length := by
  rw [sample_grid, arange_length, arange_length, ratCeil_eq_ceil, ratCeil_eq_ceil]
  have harg : (onset + tmax + dt / 2 - (onset + -(m : ℚ) * dt)) / dt
      = (tmax + dt / 2 - 0) / dt + (m : ℤ) := by
    push_cast
    field_simp
    ring
  rw [harg, Int.ceil_add_int]
  have hpos : (0 : ℤ) < ⌈(tmax + dt / 2 - 0) / dt⌉ :=
    Int.ceil_pos.mpr (div_pos (by linarith) hdt)
  omega

theorem times_grid_length_aligned (tmax dt : ℚ) (m : ℕ) (hm : 1 ≤ m)
    (hdt : 0 < dt) (htmax : 0 < tmax) :
    (times_grid (-(m : ℚ) * dt) tmax dt).length
      = m + (arange 0 (tmax + dt / 2) dt).length := by
  have hneg : -(m : ℚ) * dt < 0 := by
    have hm' : (0 : ℚ) < (m : ℚ) := by
      have : (1 : ℚ) ≤ (m : ℚ) := by exact_mod_cast hm
      linarith
    have := mul_pos hm' hdt
    linarith
  rw [times_grid, if_pos ⟨hneg, htmax⟩]
  rw [List.length_append, List.length_reverse, neg_branch_length m dt hdt]

theorem times_grid_getD_aligned (tmax dt : ℚ) (m : ℕ) (hm : 1 ≤ m)
    (hdt : 0 < dt) (htmax : 0 < tmax) :
    (times_grid (-(m : ℚ) * dt) tmax dt).getD m 1 = 0 := by
  have hneg : -(m : ℚ) * dt < 0 := by
    have hm' : (0 : ℚ) < (m : ℚ) := by
      have : (1 : ℚ) ≤ (m : ℚ) := by exact_mod_cast hm
      linarith
    have := mul_pos hm' hdt
    linarith
  rw [times_grid, if_pos ⟨hneg, htmax⟩]
  have hlen : (arange (-dt) (-(m : ℚ) * dt - dt / 2) (-dt)).reverse.length = m := by
    rw [List.length_reverse, neg_branch_length m dt hdt]
  calc ((arange (-dt) (-(m : ℚ) * dt - dt / 2) (-dt)).reverse
        ++ arange 0 (tmax + dt / 2) dt).getD m 1
      = ((arange (-dt) (-(m : ℚ) * dt - dt / 2) (-dt)).reverse
        ++ arange 0 (tmax + dt / 2) dt).getD
          (arange (-dt) (-(m : ℚ) * dt - dt / 2) (-dt)).reverse.length 1 := by
        rw [hlen]
    _ = (arange 0 (tmax + dt / 2) dt).getD 0 1 := getD_append_length _ _ _
    _ = 0 := by
        rw [arange_getD 0 (tmax + dt / 2) dt 0 1
          (pos_branch_length_pos tmax dt hdt htmax)]
        push_cast
        ring

theorem base_corr_bnone (t : List ℚ) (x : List (Option ℚ)) :
    create_base_corr_func t .bnone x = x := rfl

theorem getD_mem {α : Type} (l : List α) (i : ℕ) (d : α) (h : i < l.length) :
    l.getD i d ∈ l := by
  rw [List.getD_eq_getElem?_getD, List.getElem?_eq_getElem h]
  exact List.getElem_mem h

/-- C1 (amended): when the window start is an exact negative multiple of the
step (`tmin = -m*dt`, `m ≥ 1`, so that the per-event sampling range
`arange(t+tmin, t+tmax+dt/2, dt)` lines up with the relative-time grid),
extraction with baseline `none` succeeds, index `m` of the grid is the
sample at relative time `0`, and on every feature the epoch value there is
the interpolant of the recording evaluated exactly at the event onset; for
onsets strictly inside the recording span that interpolant is defined
(non-NaN). -/
theorem c1_zero_sample_matches_onset (raw : Raw) (events : List Ev)
    (tmax dt : ℚ) (m : ℕ) (k : ℕ)
    (hm : 1 ≤ m) (hdt : 0 < dt) (htmax : 0 < tmax)
    (hraw : 2 ≤ raw.times.length)
    (hrows : ∀ r ∈ raw.data, r.length = raw.times.length)
    (hinside : ∀ e ∈ events,
      raw.times.headD 0 < e.onset ∧ e.onset < raw.times.getLastD 0)
    (hk : k < events.length) :
    ∃ ep, Epochs.init raw events none .bnone (-(m : ℚ) * dt) tmax dt = .ok ep
      ∧ (times_grid (-(m : ℚ) * dt) tmax dt).getD m 1 = 0
      ∧ (∀ j, ((ep.data.getD k []).getD j []).getD m .none
          = interpLin (raw.times.zip (raw.data.getD j []))
              (events.getD k default).onset)
      ∧ (∀ j, j < raw.data.length →
          (interpLin (raw.times.zip (raw.data.getD j []))
              (events.getD k default).onset).isSome) := by
  have hall : events.all (fun e =>
      (sample_grid e.onset (-(m : ℚ) * dt) tmax dt).length
        == (times_grid (-(m : ℚ) * dt) tmax dt).length) = true := by
    rw [List.all_eq_true]
    intro e he
    rw [beq_iff_eq, sample_grid_length e.onset tmax dt m hdt htmax,
      times_grid_length_aligned tmax dt m hm hdt htmax]
  rw [Epochs.init, if_neg (by omega : ¬ raw.times.length < 2), if_pos hall]
  refine ⟨_, rfl, times_grid_getD_aligned tmax dt m hm hdt htmax, ?_, ?_⟩
  · intro j
    dsimp only
    rw [getD_map_of_lt _ events k _ default hk]
    by_cases hj : j < raw.data.length
    · rw [getD_map_of_lt _ raw.data j _ [] hj]
      rw [base_corr_bnone]
      have hmlt : m < (sample_grid (events.getD k default).onset
          (-(m : ℚ) * dt) tmax dt).length := by
        rw [sample_grid_length _ tmax dt m hdt htmax]
        have := pos_branch_length_pos tmax dt hdt htmax
        omega
      rw [getD_map_of_lt _ _ m _ 0 hmlt]
      rw [sample_grid] at hmlt ⊢
      rw [arange_getD _ _ _ m 0 hmlt]
      congr 1
      ring
    · rw [getD_of_length_le _ j []
        (by simpa using not_lt.mp hj)]
      rw [getD_of_length_le raw.data j [] (not_lt.mp hj)]
      simp [interpLin]
  · intro j hj
    have hemem : events.getD k default ∈ events := getD_mem events k default hk
    have hrow : (raw.data.getD j []).length = raw.times.length :=
      hrows _ (getD_mem raw.data j [] hj)
    have htne : raw.times ≠ [] := by
      intro hcon
      rw [hcon] at hraw
      simp at hraw
    have hrne : raw.data.getD j [] ≠ [] := by
      intro hcon
      rw [hcon] at hrow
      simp at hrow
      omega
    have hzne : raw.times.zip (raw.data.getD j []) ≠ [] := by
      rw [← List.length_pos, List.length_zip]
      omega
    apply interpLin_isSome _ _ hzne
    · rw [zip_headD_fst _ _ htne hrne]
      exact le_of_lt (hinside _ hemem).1
    · rw [zip_getLastD_fst _ _ 0 0 hrow.symm]
      exact le_of_lt (hinside _ hemem).2

unseal Rat.add Rat.mul Rat.inv Rat.sub in
theorem c1_zero_sample_matches_onset_witness :
    ((1 : ℕ) ≤ 2 ∧ (0 : ℚ) < 1 / 10 ∧ (0 : ℚ) < 1 / 5
      ∧ 2 ≤ rawC1.times.length
      ∧ (∀ r ∈ rawC1.data, r.length = rawC1.times.length)
      ∧ (∀ e ∈ evsC1,
          rawC1.times.headD 0 < e.onset ∧ e.onset < rawC1.times.getLastD 0)
      ∧ (0 : ℕ) < evsC1.length)
    ∧ (∃ ep, Epochs.init rawC1 evsC1 none .bnone (-((2 : ℕ) : ℚ) * (1 / 10))
          (1 / 5) (1 / 10) = .ok ep
        ∧ (times_grid (-((2 : ℕ) : ℚ) * (1 / 10)) (1 / 5) (1 / 10)).getD 2 1 = 0
        ∧ (∀ j, ((ep.data.getD 0 []).getD j []).getD 2 .none
            = interpLin (rawC1.times.zip (rawC1.data.getD j []))
                (evsC1.getD 0 default).onset)
        ∧ (∀ j, j < rawC1.data.length →
            (interpLin (rawC1.times.zip (rawC1.data.getD j []))
                (evsC1.getD 0 default).onset).isSome)) :=
  ⟨⟨by decide, by decide, by decide, by decide, by decide, by decide, by decide⟩,
    c1_zero_sample_matches_onset rawC1 evsC1 (1 / 5) (1 / 10) 2 0
      (by decide) (by decide) (by decide) (by decide) (by decide) (by decide)
      (by decide)⟩

unseal Rat.add Rat.mul Rat.inv Rat.sub in
/-- C1 is false as stated: with `tmin = -1/4`, `tmax = 1/5`, `dt = 1/10`
(so `tmin` is not a multiple of `dt`), baseline `none`, and an onset `5`
strictly inside the recording span `(0, 10)`, the relative-time grid has its
zero sample at index 2, but the extracted value there is the interpolant at
`4.95` (the per-event sampling range starts at `onset + tmin` and steps by
`dt`, so it never hits the onset), namely `99/20`, while the interpolant at
the onset is `5`. -/
theorem c1_counterexample :
    ((0 : ℚ) < 5 ∧ (5 : ℚ) < 10)
    ∧ (times_grid (-(1 / 4)) (1 / 5) (1 / 10)).getD 2 1 = 0
    ∧ ((Epochs.init rawC1 evsC1 (some [("A", 1)]) .bnone (-(1 / 4)) (1 / 5)
          (1 / 10)).toOption.map
        (fun ep => ((ep.data.getD 0 []).getD 0 []).getD 2 .none))
      = some (some (99 / 20))
    ∧ interpLin (rawC1.times.zip (rawC1.data.getD 0 [])) 5 = some 5
    ∧ (99 / 20 : ℚ) ≠ 5 :=
  ⟨by decide, by decide, by decide, by decide, by decide⟩

/-! ### C3: semantics of label-based selection -/

theorem getD_eq_getElem_of_lt {α : Type} (l : List α) (i : ℕ) (d : α)
    (h : i < l.length) : l.getD i d = l[i] := by
  rw [List.getD_eq_getElem?_getD, List.getElem?_eq_getElem h]
  rfl

theorem any_map_comp {α β : Type} (l : List α) (f : α → β) (p : β → Bool) :
    (l.map f).any p = l.any (fun a => p (f a)) := by
  induction l with
  | nil => rfl
  | cons a t ih => rw [List.map_cons, List.any_cons, List.any_cons, ih]

theorem pmatch_eq_map (self : Epochs) (keys : List String) :
    self._pmatch_event keys
      = self.events.map (fun e => labelHit self.event_id keys e.label) := by
  apply List.ext_getElem
  · simp [Epochs._pmatch_event, anyAcross]
  · intro i h1 h2
    simp only [Epochs._pmatch_event, anyAcross] at h1
    have hi : i < self.events.length := by simpa using h2
    simp only [Epochs._pmatch_event, anyAcross, List.getElem_map,
      List.getElem_range, labelHit]
    rw [any_map_comp]
    congr 1
    funext key
    rw [getD_map_of_lt _ self.events i false default hi,
      getD_eq_getElem_of_lt self.events i default hi]

theorem maskFilter_map_self {α : Type} (xs : List α) (p : α → Bool) :
    maskFilter xs (xs.map p) = xs.filter p := by
  induction xs with
  | nil => rfl
  | cons a t ih =>
    simp only [maskFilter, List.map_cons, List.zip_cons_cons, List.filter_cons]
    cases hp : p a with
    | false => simpa [maskFilter, hp] using ih
    | true => simpa [maskFilter, hp] using ih

theorem labelHit_iff (eid : List (String × ℤ)) (keys : List String) (lab : ℤ) :
    labelHit eid keys lab = true ↔
      ∃ key ∈ keys, ∃ p ∈ eid, p.2 = lab
        ∧ ∀ tok ∈ tokens key, tok ∈ tokens p.1 := by
  simp only [labelHit, matchedIds, keyMatches, List.any_eq_true,
    List.contains_eq_any_beq, List.mem_map, List.mem_filter,
    List.all_eq_true, beq_iff_eq]
  constructor
  · rintro ⟨key, hkey, m, ⟨⟨p, ⟨hp, hmat⟩, hm⟩, hlab⟩⟩
    refine ⟨key, hkey, p, hp, by rw [hm, hlab], ?_⟩
    intro tok htok
    have := hmat tok htok
    simpa [List.contains_eq_any_beq, List.any_eq_true, beq_iff_eq] using this
  · rintro ⟨key, hkey, p, hp, hlab, hsub⟩
    refine ⟨key, hkey, lab, ⟨⟨p, ⟨hp, ?_⟩, hlab⟩, rfl⟩⟩
    intro tok htok
    have := hsub tok htok
    simpa [List.contains_eq_any_beq, List.any_eq_true, beq_iff_eq] using this

theorem eq_decide_of_iff (b : Bool) (P : Prop) [Decidable P]
    (h : b = true ↔ P) : b = decide P := by
  cases b with
  | false =>
    by_cases hp : P
    · exact absurd hp (by simpa using h)
    · simp [hp]
  | true => simp [h.mp rfl]

/-- C3: selecting with one or more slash-joined names keeps exactly the
events whose stored label name (under some dictionary entry for that label)
has a token set containing all tokens of at least one query name, with the
query names OR-combined and token order irrelevant; the resulting event
dictionary holds exactly the entries whose id still occurs in the filtered
events. -/
theorem c3_pick_partial_matching (ep : Epochs) (keys : List String)
    (_hk : keys ≠ []) :
    (ep.pick keys).events = ep.events.filter (fun e =>
      decide (∃ key ∈ keys, ∃ p ∈ ep.event_id, p.2 = e.label
        ∧ ∀ tok ∈ tokens key, tok ∈ tokens p.1))
    ∧ (∀ q, q ∈ (ep.pick keys).event_id ↔
        q ∈ ep.event_id ∧ ∃ e ∈ (ep.pick keys).events, e.label = q.2) := by
  have hev : (ep.pick keys).events = ep.events.filter
      (fun e => labelHit ep.event_id keys e.label) := by
    simp only [Epochs.pick]
    rw [pmatch_eq_map, maskFilter_map_self]
  constructor
  · rw [hev]
    apply List.filter_congr
    intro e _
    exact eq_decide_of_iff _ _ (labelHit_iff ep.event_id keys e.label)
  · intro q
    have hid : (ep.pick keys).event_id
        = prune_event_id ep.event_id (ep.pick keys).events := by
      simp only [Epochs.pick]
    rw [hid, prune_event_id]
    simp only [List.mem_filter, List.any_eq_true, beq_iff_eq]

/-! ### C5: idempotence of baseline correction -/

theorem osub_none_right (v : Option ℚ) : osub v none = none := by
  cases v <;> rfl

theorem osub_none_left (c : Option ℚ) : osub none c = none := by
  cases c <;> rfl

theorem osub_some_zero (v : Option ℚ) : osub v (some 0) = v := by
  cases v with
  | none => rfl
  | some a => simp [osub]

theorem map_eq_self_of_mem {α : Type} (l : List α) (f : α → α)
    (h : ∀ a ∈ l, f a = a) : l.map f = l := by
  induction l with
  | nil => rfl
  | cons a t ih =>
    rw [List.map_cons, h a (by simp), ih (fun b hb => h b (by simp [hb]))]

theorem filterMap_osub (l : List (Option ℚ)) (c : ℚ) :
    (l.map (fun v => osub v (some c))).filterMap id
      = (l.filterMap id).map (fun a => a - c) := by
  induction l with
  | nil => rfl
  | cons v t ih =>
    cases v with
    | none => simpa [osub] using ih
    | some a => simpa [osub] using ih

theorem sum_map_sub_const (l : List ℚ) (c : ℚ) :
    (l.map (fun a => a - c)).sum = l.sum - l.length * c := by
  induction l with
  | nil => simp
  | cons a t ih =>
    rw [List.map_cons, List.sum_cons, List.sum_cons, ih]
    push_cast [List.length_cons]
    ring

theorem nanmean_shift (l : List (Option ℚ)) (c : ℚ) (h : nanmean l = some c) :
    nanmean (l.map (fun v => osub v (some c))) = some 0 := by
  rw [nanmean] at h
  by_cases hl : (l.filterMap id).length = 0
  · rw [if_pos hl] at h
    exact absurd h (by simp)
  · rw [if_neg hl] at h
    have hc : c = (l.filterMap id).sum / ((l.filterMap id).length : ℚ) :=
      (Option.some_injective _ h).symm
    have hne : ((l.filterMap id).length : ℚ) ≠ 0 := Nat.cast_ne_zero.mpr hl
    rw [nanmean, filterMap_osub]
    rw [if_neg (by simpa using hl)]
    rw [List.length_map, sum_map_sub_const, hc]
    rw [mul_div_cancel₀ _ hne]
    simp

theorem corr_idem_core (sel : List (Option ℚ) → List (Option ℚ))
    (hsel : ∀ x c, sel (x.map (fun v => osub v c))
      = (sel x).map (fun v => osub v c))
    (x : List (Option ℚ)) :
    (x.map (fun v => osub v (nanmean (sel x)))).map
        (fun v => osub v (nanmean (sel
          (x.map (fun v => osub v (nanmean (sel x)))))))
      = x.map (fun v => osub v (nanmean (sel x))) := by
  cases hc : nanmean (sel x) with
  | none =>
    apply map_eq_self_of_mem
    intro v hv
    rcases List.mem_map.mp hv with ⟨a, _, ha⟩
    have hv' : v = none := by rw [← ha, osub_none_right]
    rw [hv', osub_none_left]
  | some cv =>
    rw [hsel, nanmean_shift (sel x) cv hc]
    apply map_eq_self_of_mem
    intro v _
    exact osub_some_zero v

theorem selWindow_map_osub (t : List ℚ) (lo hi : Option ℚ)
    (y : List (Option ℚ)) (c : Option ℚ) :
    selWindow t lo hi (y.map (fun v => osub v c))
      = (selWindow t lo hi y).map (fun v => osub v c) := by
  simp only [selWindow]
  rw [List.zip_map_right, List.filter_map]
  have hfilt : ∀ l : List (ℚ × Option ℚ),
      l.filter ((fun p : ℚ × Option ℚ =>
        decide (lo.getD (t.headD 0) ≤ p.1)
          && decide (p.1 ≤ hi.getD (t.getLastD 0)))
        ∘ Prod.map id (fun v => osub v c))
      = l.filter (fun p : ℚ × Option ℚ =>
        decide (lo.getD (t.headD 0) ≤ p.1)
          && decide (p.1 ≤ hi.getD (t.getLastD 0))) := by
    intro l
    apply List.filter_congr
    intro p _
    obtain ⟨a, v⟩ := p
    rfl
  rw [hfilt, List.map_map, List.map_map]
  apply List.map_congr_left
  intro p _
  obtain ⟨a, v⟩ := p
  rfl

theorem base_corr_idem (t : List ℚ) (b : Baseline) (x : List (Option ℚ)) :
    create_base_corr_func t b (create_base_corr_func t b x)
      = create_base_corr_func t b x := by
  cases b with
  | bnone => rfl
  | ball => exact corr_idem_core id (fun _ _ => rfl) x
  | interval lo hi =>
    show interval_corr t lo hi (interval_corr t lo hi x) = interval_corr t lo hi x
    simp only [interval_corr]
    exact corr_idem_core (selWindow t lo hi) (selWindow_map_osub t lo hi) x

/-- C5: applying `apply_baseline` twice with the same baseline spec (over
`none`, `all`, or a window with the default NaN-ignoring mean) yields the
same collection as applying it once, in exact arithmetic. -/
theorem c5_apply_baseline_idempotent (ep : Epochs) (b : Baseline) :
    (ep.apply_baseline b).apply_baseline b = ep.apply_baseline b := by
  simp only [Epochs.apply_baseline, List.map_map]
  congr 1
  apply List.map_congr_left
  intro ev _
  show (ev.map (create_base_corr_func ep.times b)).map
    (create_base_corr_func ep.times b) = ev.map (create_base_corr_func ep.times b)
  rw [List.map_map]
  apply List.map_congr_left
  intro row _
  exact base_corr_idem ep.times b row

unseal Rat.add Rat.mul Rat.inv Rat.sub in
theorem c3_pick_partial_matching_witness :
    (["Physical"] ≠ ([] : List String))
    ∧ ((epC3.pick ["Physical"]).events = epC3.events.filter (fun e =>
        decide (∃ key ∈ ["Physical"], ∃ p ∈ epC3.event_id, p.2 = e.label
          ∧ ∀ tok ∈ tokens key, tok ∈ tokens p.1))
      ∧ (∀ q, q ∈ (epC3.pick ["Physical"]).event_id ↔
          q ∈ epC3.event_id ∧ ∃ e ∈ (epC3.pick ["Physical"]).events,
            e.label = q.2)) :=
  ⟨by decide, c3_pick_partial_matching epC3 ["Physical"] (by decide)⟩

/-! ### C8: construction from an empty event array -/

/-- C8 (amended): constructing epochs from a zero-row event array does not
fail: as long as the recording itself is admissible for the interpolant
(at least two samples), the constructor returns an Epochs object with zero
epochs and zero events, for every baseline and window configuration. -/
theorem c8_empty_events_succeeds (raw : Raw)
    (event_id : Option (List (String × ℤ))) (b : Baseline) (tmin tmax dt : ℚ)
    (hraw : 2 ≤ raw.times.length) :
    ∃ ep, Epochs.init raw [] event_id b tmin tmax dt = .ok ep
      ∧ ep.data = [] ∧ ep.events = [] := by
  rw [Epochs.init, if_neg (by omega : ¬ raw.times.length < 2)]
  exact ⟨_, rfl, rfl, rfl⟩

unseal Rat.add Rat.mul Rat.inv Rat.sub in
theorem c8_empty_events_succeeds_witness :
    2 ≤ rawC1.times.length
    ∧ (∃ ep, Epochs.init rawC1 [] (some [("A", 1)]) .bnone (-1) 1 1 = .ok ep
        ∧ ep.data = [] ∧ ep.events = []) :=
  ⟨by decide, c8_empty_events_succeeds rawC1 (some [("A", 1)]) .bnone (-1) 1 1
    (by decide)⟩

unseal Rat.add Rat.mul Rat.inv Rat.sub in
/-- C8 is false as stated: constructing from a zero-row event array raises
nothing at all (there is no `EmptyEventSet` check anywhere in
`Epochs.__init__`); the call returns normally and the resulting data tensor
simply has zero rows. -/
theorem c8_counterexample :
    (Epochs.init rawC1 [] (some [("A", 1)]) .bnone (-1) 1 1).toOption.isSome
      = true
    ∧ (Epochs.init rawC1 [] (some [("A", 1)]) .bnone (-1) 1 1).toOption.map
        Epochs.data = some [] :=
  ⟨by decide, by decide⟩

theorem procLine_zero (rid : ℕ) (line : FLine)
    (te : List (List ℚ) × List (List ℤ))
    (ht : te.1.length = rid) (he : te.2.length = rid) :
    ∃ te₁, procLine 0 rid line te = .ok te₁
      ∧ te₁.1.length = rid + 1 ∧ te₁.2.length = rid + 1 := by
  cases line with
  | star =>
    exact ⟨(te.1 ++ [[]], te.2 ++ [[]]), by simp [procLine],
      by simp [ht], by simp [he]⟩
  | onsets ts =>
    have hlt : rid < (te.1 ++ [[]]).length := by simp [ht]
    refine ⟨((te.1 ++ [[]]).set rid ((te.1 ++ [[]]).getD rid [] ++ ts),
      (te.2 ++ [[]]).set rid
        ((te.2 ++ [[]]).getD rid [] ++ List.replicate ts.length
          (((0 : ℕ) : ℤ) + 1))), ?_, ?_, ?_⟩
    · simp [procLine]
      omega
    · simp [ht]
    · simp [he]

theorem procLine_pos (eid rid : ℕ) (heid : ¬ eid = 0) (line : FLine)
    (te : List (List ℚ) × List (List ℤ)) (hlt : rid < te.1.length) :
    ∃ te₁, procLine eid rid line te = .ok te₁
      ∧ te₁.1.length = te.1.length ∧ te₁.2.length = te.2.length := by
  cases line with
  | star => exact ⟨te, by simp [procLine, heid], rfl, rfl⟩
  | onsets ts =>
    refine ⟨(te.1.set rid (te.1.getD rid [] ++ ts),
      te.2.set rid (te.2.getD rid [] ++ List.replicate ts.length
        ((eid : ℤ) + 1))), ?_, by simp, by simp⟩
    simp [procLine, heid, hlt]

theorem procFile_zero_ok (lines : List FLine) (rid : ℕ)
    (te : List (List ℚ) × List (List ℤ))
    (ht : te.1.length = rid) (he : te.2.length = rid) :
    ∃ te', procFile 0 rid lines te = .ok te'
      ∧ te'.1.length = rid + lines.length
      ∧ te'.2.length = rid + lines.length := by
  induction lines generalizing rid te with
  | nil => exact ⟨te, rfl, by simpa using ht, by simpa using he⟩
  | cons line rest ih =>
    obtain ⟨te₁, h1, h2, h3⟩ := procLine_zero rid line te ht he
    obtain ⟨te', h4, h5, h6⟩ := ih (rid + 1) te₁ h2 h3
    refine ⟨te', ?_, by simp; omega, by simp; omega⟩
    show (procLine 0 rid line te).bind (procFile 0 (rid + 1) rest) = .ok te'
    rw [h1]
    exact h4

theorem procFile_pos_ok (eid : ℕ) (heid : ¬ eid = 0) (lines : List FLine)
    (rid : ℕ) (te : List (List ℚ) × List (List ℤ))
    (hbound : rid + lines.length ≤ te.1.length) :
    ∃ te', procFile eid rid lines te = .ok te'
      ∧ te'.1.length = te.1.length ∧ te'.2.length = te.2.length := by
  induction lines generalizing rid te with
  | nil => exact ⟨te, rfl, rfl, rfl⟩
  | cons line rest ih =>
    have hlt : rid < te.1.length := by simp at hbound; omega
    obtain ⟨te₁, h1, h2, h3⟩ := procLine_pos eid rid heid line te hlt
    obtain ⟨te', h4, h5, h6⟩ := ih (rid + 1) te₁ (by simp at hbound; omega)
    refine ⟨te', ?_, by omega, by omega⟩
    show (procLine eid rid line te).bind (procFile eid (rid + 1) rest) = .ok te'
    rw [h1]
    exact h4

theorem procFiles_ok (files : List (String × List FLine)) (eid : ℕ)
    (heid : ¬ eid = 0) (te : List (List ℚ) × List (List ℤ))
    (hbound : ∀ f ∈ files, f.2.length ≤ te.1.length) :
    ∃ te', procFiles eid files te = .ok te'
      ∧ te'.1.length = te.1.length ∧ te'.2.length = te.2.length := by
  induction files generalizing eid te with
  | nil => exact ⟨te, rfl, rfl, rfl⟩
  | cons f rest ih =>
    obtain ⟨te₁, h1, h2, h3⟩ := procFile_pos_ok eid heid f.2 0 te
      (by simpa using hbound f (by simp))
    obtain ⟨te', h4, h5, h6⟩ := ih (eid + 1) (by omega) te₁
      (fun g hg => by rw [h2]; exact hbound g (by simp [hg]))
    refine ⟨te', ?_, by omega, by omega⟩
    show (procFile eid 0 f.2 te).bind (procFiles (eid + 1) rest) = .ok te'
    rw [h1]
    exact h4

/-- C7 (amended): `read_events` performs no run-count validation. Whenever
every later condition file has at most as many non-blank lines as the first
file, the call returns normally even if the counts differ (the later
conditions simply contribute no events to the uncovered runs); no
`MalformedTimingSource`-style failure exists in the code. (A later file
with more non-star lines than the first fails with a plain index error
instead.) -/
theorem c7_read_events_no_runcount_check (name1 : String)
    (lines1 : List FLine) (rest : List (String × List FLine))
    (hshort : ∀ f ∈ rest, f.2.length ≤ lines1.length) :
    (read_events ((name1, lines1) :: rest)).toOption.isSome = true := by
  obtain ⟨te₁, h1, h2, h3⟩ := procFile_zero_ok lines1 0 ([], []) rfl rfl
  obtain ⟨te', h4, h5, h6⟩ := procFiles_ok rest 1 (by omega) te₁
    (fun f hf => by rw [h2]; simpa using hshort f hf)
  have hall : procFiles 0 ((name1, lines1) :: rest) ([], []) = .ok te' := by
    show (procFile 0 0 lines1 ([], [])).bind (procFiles 1 rest) = .ok te'
    rw [h1]
    exact h4
  obtain ⟨t', e'⟩ := te'
  rw [read_events, hall]
  rfl

unseal Rat.add Rat.mul Rat.inv Rat.sub in
theorem c7_read_events_no_runcount_check_witness :
    (∀ f ∈ [("B", [FLine.onsets [3]])],
      f.2.length ≤ [FLine.onsets [1], FLine.onsets [2]].length)
    ∧ (read_events [("A", [FLine.onsets [1], FLine.onsets [2]]),
        ("B", [FLine.onsets [3]])]).toOption.isSome = true :=
  ⟨by decide, c7_read_events_no_runcount_check "A"
    [FLine.onsets [1], FLine.onsets [2]] [("B", [FLine.onsets [3]])]
    (by decide)⟩

unseal Rat.add Rat.mul Rat.inv Rat.sub in
/-- C7 is false as stated: here condition file `A` describes two runs and
condition file `B` only one (different counts of non-blank lines), yet
`read_events` raises nothing and returns the full result: run 0 holds the
events of both conditions sorted by onset, run 1 holds only the event of
condition `A`, and the dictionary maps `A` to 1 and `B` to 2. -/
theorem c7_counterexample :
    (read_events [("A", [FLine.onsets [2], FLine.onsets [1]]),
        ("B", [FLine.onsets [3]])]).toOption
      = some ([[⟨2, 0, 1⟩, ⟨3, 0, 2⟩], [⟨1, 0, 1⟩]], [("A", 1), ("B", 2)])
    ∧ [FLine.onsets [2], FLine.onsets [1]].length
        ≠ [FLine.onsets [3]].length :=
  ⟨by decide, by decide⟩

theorem lookup_cons_ite {α : Type} (a : String) (b : α)
    (es : List (String × α)) (k : String) :
    ((a, b) :: es).lookup k = if k = a then some b else es.lookup k := by
  rw [List.lookup_cons]
  by_cases h : k = a
  · simp [h]
  · have hb : (k == a) = false := beq_eq_false_iff_ne.mpr h
    simp [hb, h]

theorem lookup_dictInsert {α : Type} (d : List (String × α)) (k k' : String)
    (v : α) :
    (dictInsert d (k', v)).lookup k = if k = k' then some v else d.lookup k := by
  induction d with
  | nil =>
    rw [dictInsert, lookup_cons_ite]
  | cons q rest ih =>
    obtain ⟨a, b⟩ := q
    rw [dictInsert]
    by_cases hq : a = k'
    · rw [if_pos (by simpa using hq), lookup_cons_ite, lookup_cons_ite, hq]
      by_cases hk : k = k'
      · simp [hk]
      · simp [hk]
    · rw [if_neg (by simpa using hq), lookup_cons_ite, lookup_cons_ite, ih]
      by_cases hk : k = a
      · rw [if_pos hk, if_pos hk, if_neg (by rw [hk]; exact hq)]
      · rw [if_neg hk, if_neg hk]

theorem lookup_none_of_forall {α : Type} (l : List (String × α)) (k : String)
    (h : ∀ p ∈ l, p.1 ≠ k) : l.lookup k = none := by
  induction l with
  | nil => rfl
  | cons p rest ih =>
    obtain ⟨a, b⟩ := p
    rw [lookup_cons_ite, if_neg (fun hk => h (a, b) (by simp) (by simp [hk]))]
    exact ih (fun q hq => h q (by simp [hq]))

theorem dictInsert_self {α : Type} (d : List (String × α)) (k : String) (v : α)
    (hnd : (d.map Prod.fst).Nodup) (h : d.lookup k = some v) :
    dictInsert d (k, v) = d := by
  induction d with
  | nil => simp at h
  | cons q rest ih =>
    obtain ⟨a, b⟩ := q
    rw [lookup_cons_ite] at h
    rw [dictInsert]
    by_cases hk : k = a
    · rw [if_pos (by simp [hk])]
      rw [if_pos hk] at h
      have hbv : b = v := by simpa using h
      rw [hbv]
    · rw [if_neg (by simp; exact fun hc => hk hc.symm)]
      rw [if_neg hk] at h
      have hnd2 : (rest.map Prod.fst).Nodup :=
        (List.nodup_cons.mp (by simpa using hnd)).2
      rw [ih hnd2 h]

theorem storeWrite_self (σ : Store) (r : ℕ) : storeWrite σ r (σ r) = σ := by
  funext i
  rw [storeWrite]
  by_cases h : i = r
  · rw [if_pos h, h]
  · rw [if_neg h]

/-! ### C4: what selection shares and mutates -/

unseal Rat.add Rat.mul Rat.inv Rat.sub in
/-- C4 is false as stated: `pick` is a shallow copy, so the returned
collection shares the `info` dictionary with the source (same reference),
and selecting by an event-label name writes the `condition` key through
that shared dictionary: after the call the source's own `info` has gained
`condition`, which it did not have before. -/
theorem c4_counterexample :
    ((epC3.pickS (fun _ => [("sfreq", IVal.num 1)]) (.byNames ["Physical"])
        .all).2.infoRef = epC3.infoRef)
    ∧ List.lookup "condition"
        ((epC3.pickS (fun _ => [("sfreq", IVal.num 1)]) (.byNames ["Physical"])
          .all).1 epC3.infoRef)
      = some (.str "Physical")
    ∧ List.lookup "condition"
        ((fun _ => [("sfreq", IVal.num 1)] : Store) epC3.infoRef) = none :=
  ⟨by decide, by decide, by decide⟩

/-- C4 (amended): `pick` returns a shallow copy whose `info` dictionary is
the same object as the source's (shared reference), for every kind of event
selection. Selecting by index mask with no time selection leaves every
source attribute unmodified — the `tmin`/`tmax` writes rewrite the shared
dictionary with its existing values — but selection by label names (and
time-range selection that changes the grid) mutates the shared dictionary,
hence the source. -/
theorem c4_pick_shares_info (self : Epochs) (σ : Store) (m : List Bool)
    (keys : List String) (tsel : TimeSel)
    (hnd : ((σ self.infoRef).map Prod.fst).Nodup)
    (htmin : (σ self.infoRef).lookup "tmin"
      = some (.num (self.times.headD 0)))
    (htmax : (σ self.infoRef).lookup "tmax"
      = some (.num (self.times.getLastD 0))) :
    ((self.pickS σ (.byMask m) .all).1 = σ
      ∧ (self.pickS σ (.byMask m) .all).2.infoRef = self.infoRef)
    ∧ (self.pickS σ (.byNames keys) tsel).2.infoRef = self.infoRef := by
  refine ⟨⟨?_, rfl⟩, rfl⟩
  show storeWrite σ self.infoRef
    (dictInsert
      (dictInsert (σ self.infoRef) ("tmin", .num (self.times.headD 0)))
      ("tmax", .num (self.times.getLastD 0))) = σ
  rw [dictInsert_self _ _ _ hnd htmin]
  rw [dictInsert_self _ _ _ hnd htmax]
  exact storeWrite_self σ self.infoRef

unseal Rat.add Rat.mul Rat.inv Rat.sub in
theorem c4_pick_shares_info_witness :
    ((((fun _ => [("tmin", IVal.num 0), ("tmax", IVal.num 0)] : Store)
        epC3.infoRef).map Prod.fst).Nodup
      ∧ ((fun _ => [("tmin", IVal.num 0), ("tmax", IVal.num 0)] : Store)
          epC3.infoRef).lookup "tmin" = some (.num (epC3.times.headD 0))
      ∧ ((fun _ => [("tmin", IVal.num 0), ("tmax", IVal.num 0)] : Store)
          epC3.infoRef).lookup "tmax" = some (.num (epC3.times.getLastD 0)))
    ∧ (((epC3.pickS (fun _ => [("tmin", IVal.num 0), ("tmax", IVal.num 0)])
          (.byMask [true, false, true]) .all).1)
        = (fun _ => [("tmin", IVal.num 0), ("tmax", IVal.num 0)])
      ∧ (epC3.pickS (fun _ => [("tmin", IVal.num 0), ("tmax", IVal.num 0)])
          (.byMask [true, false, true]) .all).2.infoRef = epC3.infoRef)
    ∧ (epC3.pickS (fun _ => [("tmin", IVal.num 0), ("tmax", IVal.num 0)])
        (.byNames ["Mental"]) .all).2.infoRef = epC3.infoRef :=
  ⟨⟨by decide, by decide, by decide⟩,
    c4_pick_shares_info epC3 (fun _ => [("tmin", IVal.num 0), ("tmax", IVal.num 0)])
      [true, false, true] ["Mental"] .all (by decide) (by decide) (by decide)⟩

/-- C10: constructing an `Epochs` from a `Raw` aliases the recording's
`info` dictionary (the built object carries the same reference, not a
copy) and mutates it in place: afterwards the recording's dictionary has
`sfreq` overwritten with `1/dt` and holds the keys `tmin`, `tmax`,
`baseline`, `interp`, `hamm`, `conditions` and `condition` with the values
of the epoch configuration. -/
theorem c10_init_aliases_info (σ : Store) (raw : Raw) (events : List Ev)
    (event_id : Option (List (String × ℤ))) (b : Baseline) (tmin tmax dt : ℚ)
    (conditions : Option (List String)) (ep : Epochs)
    (hok : (Epochs.init raw events event_id b tmin tmax dt).toOption
      = some ep) :
    ep.infoRef = raw.infoRef
    ∧ (infoAfterInit σ raw events event_id b tmin tmax dt
        conditions).lookup "sfreq" = some (.num (1 / dt))
    ∧ (infoAfterInit σ raw events event_id b tmin tmax dt
        conditions).lookup "tmin" = some (.num tmin)
    ∧ (infoAfterInit σ raw events event_id b tmin tmax dt
        conditions).lookup "tmax" = some (.num tmax)
    ∧ (infoAfterInit σ raw events event_id b tmin tmax dt
        conditions).lookup "baseline" = some (.base b)
    ∧ (infoAfterInit σ raw events event_id b tmin tmax dt
        conditions).lookup "interp" = some (.str "linear")
    ∧ (infoAfterInit σ raw events event_id b tmin tmax dt
        conditions).lookup "hamm" = some .pynone
    ∧ ((infoAfterInit σ raw events event_id b tmin tmax dt
        conditions).lookup "conditions").isSome
    ∧ (infoAfterInit σ raw events event_id b tmin tmax dt
        conditions).lookup "condition" = some .pynone := by
  have hinfo : ep.infoRef = raw.infoRef := by
    rw [Epochs.init] at hok
    by_cases h1 : raw.times.length < 2
    · rw [if_pos h1] at hok
      exact absurd hok (by simp [Except.toOption])
    · rw [if_neg h1] at hok
      by_cases h2 : events.all (fun e =>
          (sample_grid e.onset tmin tmax dt).length
            == (times_grid tmin tmax dt).length) = true
      · rw [if_pos h2] at hok
        have := Option.some_injective _ (by simpa [Except.toOption] using hok)
        rw [← this]
      · rw [if_neg h2] at hok
        exact absurd hok (by simp [Except.toOption])
  have hd : infoAfterInit σ raw events event_id b tmin tmax dt conditions
      = dictInsert (dictInsert (dictInsert (dictInsert (dictInsert
          (dictInsert (dictInsert (dictInsert (σ raw.infoRef)
            ("sfreq", .num (1 / dt)))
            ("tmin", .num tmin))
            ("tmax", .num tmax))
            ("baseline", .base b))
            ("interp", .str "linear"))
            ("hamm", .pynone))
            ("conditions", match conditions with
              | some l => .strs l
              | none => .pynone))
            ("condition", .pynone) := by
    show storeWrite σ raw.infoRef _ raw.infoRef = _
    rw [storeWrite, if_pos rfl]
  refine ⟨hinfo, ?_, ?_, ?_, ?_, ?_, ?_, ?_, ?_⟩ <;>
    simp [hd, lookup_dictInsert]

unseal Rat.add Rat.mul Rat.inv Rat.sub in
theorem c10_init_aliases_info_witness :
    ((Epochs.init rawC1 [⟨5, 0, 1⟩] (some [("A", 1)]) .bnone (-1) 1 1).toOption
      = some ⟨[[[some 4, some 5, some 6]]], [⟨5, 0, 1⟩], [("A", 1)],
          [-1, 0, 1], 0⟩)
    ∧ ((⟨[[[some 4, some 5, some 6]]], [⟨5, 0, 1⟩], [("A", 1)],
          [-1, 0, 1], 0⟩ : Epochs).infoRef = rawC1.infoRef
      ∧ (infoAfterInit (fun _ => []) rawC1 [⟨5, 0, 1⟩] (some [("A", 1)])
          .bnone (-1) 1 1 (some ["Cond"])).lookup "sfreq"
          = some (.num (1 / 1))
      ∧ (infoAfterInit (fun _ => []) rawC1 [⟨5, 0, 1⟩] (some [("A", 1)])
          .bnone (-1) 1 1 (some ["Cond"])).lookup "tmin" = some (.num (-1))
      ∧ (infoAfterInit (fun _ => []) rawC1 [⟨5, 0, 1⟩] (some [("A", 1)])
          .bnone (-1) 1 1 (some ["Cond"])).lookup "tmax" = some (.num 1)
      ∧ (infoAfterInit (fun _ => []) rawC1 [⟨5, 0, 1⟩] (some [("A", 1)])
          .bnone (-1) 1 1 (some ["Cond"])).lookup "baseline"
          = some (.base .bnone)
      ∧ (infoAfterInit (fun _ => []) rawC1 [⟨5, 0, 1⟩] (some [("A", 1)])
          .bnone (-1) 1 1 (some ["Cond"])).lookup "interp"
          = some (.str "linear")
      ∧ (infoAfterInit (fun _ => []) rawC1 [⟨5, 0, 1⟩] (some [("A", 1)])
          .bnone (-1) 1 1 (some ["Cond"])).lookup "hamm" = some .pynone
      ∧ ((infoAfterInit (fun _ => []) rawC1 [⟨5, 0, 1⟩] (some [("A", 1)])
          .bnone (-1) 1 1 (some ["Cond"])).lookup "conditions").isSome
      ∧ (infoAfterInit (fun _ => []) rawC1 [⟨5, 0, 1⟩] (some [("A", 1)])
          .bnone (-1) 1 1 (some ["Cond"])).lookup "condition"
          = some .pynone) :=
  ⟨by decide,
    c10_init_aliases_info (fun _ => []) rawC1 [⟨5, 0, 1⟩] (some [("A", 1)])
      .bnone (-1) 1 1 (some ["Cond"])
      ⟨[[[some 4, some 5, some 6]]], [⟨5, 0, 1⟩], [("A", 1)], [-1, 0, 1], 0⟩
      (by decide)⟩

theorem maskFilter_length_congr {α β : Type} (xs : List α) (ys : List β)
    (m : List Bool) (h : xs.length = ys.length) :
    (maskFilter xs m).length = (maskFilter ys m).length := by
  induction xs generalizing ys m with
  | nil =>
    have hy : ys = [] := List.eq_nil_of_length_eq_zero h.symm
    rw [hy]
    rfl
  | cons x xs' ih =>
    cases ys with
    | nil => simp at h
    | cons y ys' =>
      cases m with
      | nil => rfl
      | cons b m' =>
        simp only [maskFilter, List.zip_cons_cons, List.filter_cons]
        cases b with
        | false => exact ih ys' m' (by simpa using h)
        | true => simpa [maskFilter] using ih ys' m' (by simpa using h)

theorem maskFilter_subset {α : Type} (xs : List α) (m : List Bool) (a : α)
    (h : a ∈ maskFilter xs m) : a ∈ xs := by
  rw [maskFilter] at h
  rcases List.mem_map.mp h with ⟨p, hp, hpa⟩
  rcases List.mem_filter.mp hp with ⟨hz, _⟩
  rw [← hpa]
  exact (List.of_mem_zip hz).1

theorem inv_labels_prune (D : List (String × ℤ)) (evs0 evs' : List Ev)
    (hinv : ∀ e ∈ evs0, ∃ p ∈ D, p.2 = e.label)
    (hsub : ∀ e ∈ evs', e ∈ evs0) :
    ∀ e ∈ evs', ∃ p ∈ prune_event_id D evs', p.2 = e.label := by
  intro e he
  rcases hinv e (hsub e he) with ⟨p, hp, hpe⟩
  refine ⟨p, ?_, hpe⟩
  rw [prune_event_id, List.mem_filter]
  refine ⟨hp, ?_⟩
  rw [List.any_eq_true]
  exact ⟨e, he, by rw [beq_iff_eq, hpe]⟩

theorem enumFrom_filter_length_congr {α β : Type} (ids : List ℕ)
    (xs : List α) (ys : List β) (k : ℕ) (h : xs.length = ys.length) :
    ((xs.enumFrom k).filter (fun p => !(ids.contains p.1))).length
      = ((ys.enumFrom k).filter (fun p => !(ids.contains p.1))).length := by
  induction xs generalizing ys k with
  | nil =>
    have hy : ys = [] := List.eq_nil_of_length_eq_zero h.symm
    rw [hy]
    rfl
  | cons x xs' ih =>
    cases ys with
    | nil => simp at h
    | cons y ys' =>
      simp only [List.enumFrom_cons, List.filter_cons]
      cases hc : !(ids.contains k) with
      | false => exact ih ys' (k + 1) (by simpa using h)
      | true => simpa using ih ys' (k + 1) (by simpa using h)

theorem removeIdx_length_congr {α β : Type} (xs : List α) (ys : List β)
    (ids : List ℕ) (h : xs.length = ys.length) :
    (removeIdx xs ids).length = (removeIdx ys ids).length := by
  rw [removeIdx, removeIdx, List.length_map, List.length_map]
  exact enumFrom_filter_length_congr ids xs ys 0 h

theorem mem_of_mem_enumFrom {α : Type} (xs : List α) (k : ℕ) (p : ℕ × α)
    (h : p ∈ xs.enumFrom k) : p.2 ∈ xs := by
  induction xs generalizing k with
  | nil => simp at h
  | cons x xs' ih =>
    rw [List.enumFrom_cons] at h
    rcases List.mem_cons.mp h with h | h
    · rw [h]
      exact List.mem_cons_self _ _
    · exact List.mem_cons_of_mem _ (ih (k + 1) h)

theorem removeIdx_subset {α : Type} (xs : List α) (ids : List ℕ) (a : α)
    (h : a ∈ removeIdx xs ids) : a ∈ xs := by
  rw [removeIdx] at h
  rcases List.mem_map.mp h with ⟨p, hp, hpa⟩
  rcases List.mem_filter.mp hp with ⟨he, _⟩
  rw [← hpa]
  exact mem_of_mem_enumFrom xs 0 p he

theorem lookup_append_dict {α : Type} (l₁ l₂ : List (String × α)) (k : String) :
    (l₁ ++ l₂).lookup k = optOr (l₁.lookup k) (l₂.lookup k) := by
  induction l₁ with
  | nil => simp [optOr]
  | cons p rest ih =>
    obtain ⟨a, b⟩ := p
    rw [List.cons_append, lookup_cons_ite, lookup_cons_ite]
    by_cases h : k = a
    · rw [if_pos h, if_pos h]
      rfl
    · rw [if_neg h, if_neg h, ih]

theorem dictInsert_of_lookup_none {α : Type} (d : List (String × α))
    (p : String × α) (h : d.lookup p.1 = none) : dictInsert d p = d ++ [p] := by
  induction d with
  | nil => rfl
  | cons q rest ih =>
    obtain ⟨a, b⟩ := q
    rw [lookup_cons_ite] at h
    by_cases hk : p.1 = a
    · rw [if_pos hk] at h
      simp at h
    · rw [if_neg hk] at h
      rw [dictInsert, if_neg (fun hc => hk hc.symm), ih h, List.cons_append]

theorem lookup_self_of_nodup {α : Type} (d : List (String × α))
    (p : String × α) (hp : p ∈ d) (hnd : (d.map Prod.fst).Nodup) :
    d.lookup p.1 = some p.2 := by
  induction d with
  | nil => simp at hp
  | cons q rest ih =>
    obtain ⟨a, b⟩ := q
    rw [List.map_cons] at hnd
    have hnd' := List.nodup_cons.mp hnd
    rcases List.mem_cons.mp hp with h | h
    · rw [h, lookup_cons_ite, if_pos rfl]
    · rw [lookup_cons_ite]
      have hne : p.1 ≠ a := by
        intro hc
        exact hnd'.1 (by
          rw [← hc]
          exact List.mem_map.mpr ⟨p, h, rfl⟩)
      rw [if_neg hne]
      exact ih h hnd'.2

theorem insertAll_noop {α : Type} (d acc : List (String × α))
    (hnd : (acc.map Prod.fst).Nodup)
    (h : ∀ p ∈ d, acc.lookup p.1 = some p.2) :
    d.foldl dictInsert acc = acc := by
  induction d generalizing acc with
  | nil => rfl
  | cons p rest ih =>
    rw [List.foldl_cons]
    have hp := h p (by simp)
    have hins : dictInsert acc p = acc := by
      obtain ⟨k, v⟩ := p
      exact dictInsert_self acc k v hnd hp
    rw [hins]
    exact ih acc hnd (fun q hq => h q (by simp [hq]))

theorem insertAll_fresh {α : Type} (d : List (String × α)) :
    ∀ acc, (d.map Prod.fst).Nodup → (∀ p ∈ d, acc.lookup p.1 = none) →
      d.foldl dictInsert acc = acc ++ d := by
  induction d with
  | nil =>
    intro acc _ _
    simp
  | cons p rest ih =>
    intro acc hnd hfresh
    rw [List.foldl_cons, dictInsert_of_lookup_none acc p (hfresh p (by simp))]
    rw [List.map_cons] at hnd
    have hnd' := List.nodup_cons.mp hnd
    have hfresh' : ∀ q ∈ rest, (acc ++ [p]).lookup q.1 = none := by
      intro q hq
      rw [lookup_append_dict, hfresh q (by simp [hq])]
      have hne : q.1 ≠ p.1 := by
        intro hc
        exact hnd'.1 (by
          rw [← hc]
          exact List.mem_map.mpr ⟨q, hq, rfl⟩)
      show optOr none (((p.1, p.2) :: []).lookup q.1) = none
      rw [lookup_cons_ite, if_neg hne]
      rfl
    rw [ih (acc ++ [p]) hnd'.2 hfresh']
    simp

theorem mergeDicts_const {α : Type} (L : List (List (String × α)))
    (D : List (String × α)) (hne : L ≠ []) (hall : ∀ d ∈ L, d = D)
    (hnd : (D.map Prod.fst).Nodup) : mergeDicts L = D := by
  cases L with
  | nil => exact absurd rfl hne
  | cons d0 rest =>
    have hd0 : d0 = D := hall d0 (by simp)
    rw [mergeDicts, List.foldl_cons, hd0]
    have hfirst : D.foldl dictInsert [] = D := by
      have := insertAll_fresh D [] hnd (fun p _ => rfl)
      simpa using this
    rw [hfirst]
    have haux : ∀ rs : List (List (String × α)), (∀ d ∈ rs, d = D) →
        rs.foldl (fun acc d => d.foldl dictInsert acc) D = D := by
      intro rs
      induction rs with
      | nil =>
        intro _
        rfl
      | cons r rs' ih2 =>
        intro hall2
        rw [List.foldl_cons, hall2 r (by simp)]
        rw [insertAll_noop D D hnd
          (fun p hp => lookup_self_of_nodup D p hp hnd)]
        exact ih2 (fun d hd => hall2 d (by simp [hd]))
    exact haux rest (fun d hd => hall d (by simp [hd]))

theorem flatten_length_congr (L : List Epochs)
    (h : ∀ e ∈ L, e.data.length = e.events.length) :
    (L.map Epochs.data).flatten.length
      = (L.map Epochs.events).flatten.length := by
  induction L with
  | nil => rfl
  | cons e rest ih =>
    simp only [List.map_cons, List.flatten_cons, List.length_append]
    rw [h e (by simp), ih (fun x hx => h x (by simp [hx]))]

/-- C9 (amended): `pick` (by label names or by mask) and `drop_events`
preserve both invariants; `concatinate_epochs` always preserves the shape
invariant, and preserves the label invariant when the runs share one event
dictionary (with unique names, as a Python dict guarantees). -/
theorem c9_ops_preserve_invariants :
    (∀ (ep : Epochs) (keys : List String), inv_shape ep → inv_labels ep →
      inv_shape (ep.pick keys) ∧ inv_labels (ep.pick keys))
    ∧ (∀ (ep : Epochs) (m : List Bool), inv_shape ep → inv_labels ep →
      inv_shape (ep.pick_mask m) ∧ inv_labels (ep.pick_mask m))
    ∧ (∀ (ep : Epochs) (ids : List ℕ), inv_shape ep → inv_labels ep →
      inv_shape (ep.drop_events ids) ∧ inv_labels (ep.drop_events ids))
    ∧ (∀ (L : List Epochs) (D : List (String × ℤ)), L ≠ [] →
      (∀ e ∈ L, e.event_id = D) → (D.map Prod.fst).Nodup →
      (∀ e ∈ L, inv_shape e ∧ inv_labels e) →
      inv_shape (concatinate_epochs L) ∧ inv_labels (concatinate_epochs L)) := by
  refine ⟨?_, ?_, ?_, ?_⟩
  · intro ep keys hs hl
    constructor
    · exact maskFilter_length_congr ep.data ep.events (ep._pmatch_event keys) hs
    · exact inv_labels_prune ep.event_id ep.events
        (maskFilter ep.events (ep._pmatch_event keys)) hl
        (fun e he => maskFilter_subset ep.events _ e he)
  · intro ep m hs hl
    constructor
    · exact maskFilter_length_congr ep.data ep.events m hs
    · exact inv_labels_prune ep.event_id ep.events (maskFilter ep.events m) hl
        (fun e he => maskFilter_subset ep.events m e he)
  · intro ep ids hs hl
    constructor
    · exact removeIdx_length_congr ep.data ep.events ids hs
    · exact inv_labels_prune ep.event_id ep.events (removeIdx ep.events ids) hl
        (fun e he => removeIdx_subset ep.events ids e he)
  · intro L D hne hD hnd hinv
    have hid : (concatinate_epochs L).event_id = D := by
      show mergeDicts (L.map Epochs.event_id) = D
      apply mergeDicts_const _ D
      · intro hc
        rcases L with _ | ⟨x, xs⟩
        · exact hne rfl
        · simp at hc
      · intro d hd
        rcases List.mem_map.mp hd with ⟨run, hrun, hre⟩
        rw [← hre]
        exact hD run hrun
      · exact hnd
    constructor
    · exact flatten_length_congr L (fun e he => (hinv e he).1)
    · intro ev hev
      rcases List.mem_flatten.mp hev with ⟨evs, hevs, hmem⟩
      rcases List.mem_map.mp hevs with ⟨run, hrun, hre⟩
      rcases (hinv run hrun).2 ev (by rw [hre]; exact hmem) with ⟨p, hp, hpe⟩
      refine ⟨p, ?_, hpe⟩
      rw [hid]
      rw [hD run hrun] at hp
      exact hp

unseal Rat.add Rat.mul Rat.inv Rat.sub in
/-- C9 is false as stated for concatenation: two individually valid runs
whose dictionaries give the same name different ids merge (Python dict
update semantics) into a dictionary where the first label loses its entry,
so the concatenated collection violates the label invariant. -/
theorem c9_counterexample :
    (inv_shape epA ∧ inv_labels epA ∧ inv_shape epB ∧ inv_labels epB)
    ∧ ¬ inv_labels (concatinate_epochs [epA, epB]) :=
  ⟨⟨by decide, by decide, by decide, by decide⟩, by decide⟩

unseal Rat.add Rat.mul Rat.inv Rat.sub in
theorem c9_ops_preserve_invariants_witness :
    (inv_shape epC3 ∧ inv_labels epC3)
    ∧ (inv_shape (epC3.pick ["Physical"]) ∧ inv_labels (epC3.pick ["Physical"])) :=
  ⟨⟨by decide, by decide⟩,
    c9_ops_preserve_invariants.1 epC3 ["Physical"] (by decide) (by decide)⟩

/-! ### C6: concatenation commutes with label selection -/

theorem maskFilter_append {α : Type} (xs ys : List α) :
    ∀ m₁ m₂ : List Bool, xs.length = m₁.length →
      maskFilter (xs ++ ys) (m₁ ++ m₂) = maskFilter xs m₁ ++ maskFilter ys m₂ := by
  induction xs with
  | nil =>
    intro m₁ m₂ h
    have hm : m₁ = [] := List.eq_nil_of_length_eq_zero h.symm
    rw [hm]
    rfl
  | cons x xs' ih =>
    intro m₁ m₂ h
    cases m₁ with
    | nil => simp at h
    | cons b m₁' =>
      simp only [List.cons_append, maskFilter, List.zip_cons_cons,
        List.filter_cons]
      cases b with
      | true => simpa [maskFilter] using ih m₁' m₂ (by simpa using h)
      | false => simpa [maskFilter] using ih m₁' m₂ (by simpa using h)

theorem maskFilter_flatten_by_events (L : List Epochs) (p : Ev → Bool)
    (h : ∀ e ∈ L, e.data.length = e.events.length) :
    maskFilter (L.map Epochs.data).flatten
        (((L.map Epochs.events).flatten).map p)
      = (L.map (fun e => maskFilter e.data (e.events.map p))).flatten := by
  induction L with
  | nil => rfl
  | cons e rest ih =>
    simp only [List.map_cons, List.flatten_cons, List.map_append]
    rw [maskFilter_append _ _ _ _ (by rw [List.length_map]; exact h e (by simp))]
    rw [ih (fun x hx => h x (by simp [hx]))]

theorem any_flatten {α : Type} (l : List (List α)) (p : α → Bool) :
    l.flatten.any p = l.any (fun x => x.any p) := by
  induction l with
  | nil => rfl
  | cons x xs ih => rw [List.flatten_cons, List.any_append, List.any_cons, ih]

theorem lookup_filter {α : Type} (D : List (String × α))
    (q : String × α → Bool) (k : String) (hnd : (D.map Prod.fst).Nodup) :
    (D.filter q).lookup k
      = (D.lookup k).bind (fun v => if q (k, v) then some v else none) := by
  induction D with
  | nil => rfl
  | cons ab rest ih =>
    obtain ⟨a, b⟩ := ab
    rw [List.map_cons] at hnd
    have hnd' := List.nodup_cons.mp hnd
    rw [List.filter_cons, lookup_cons_ite]
    by_cases hk : k = a
    · rw [if_pos hk]
      subst hk
      cases hq : q (k, b) with
      | true =>
        rw [if_pos rfl, lookup_cons_ite, if_pos rfl]
        simp [hq]
      | false =>
        rw [if_neg (by simp [hq])]
        have hnone : (rest.filter q).lookup k = none := by
          apply lookup_none_of_forall
          intro p hp hc
          exact hnd'.1 (by
            rw [← hc]
            exact List.mem_map.mpr ⟨p, (List.mem_filter.mp hp).1, rfl⟩)
        rw [hnone]
        simp [hq]
    · rw [if_neg hk]
      cases hq : q (a, b) with
      | true =>
        rw [if_pos rfl, lookup_cons_ite, if_neg hk]
        exact ih hnd'.2
      | false =>
        rw [if_neg (by simp [hq])]
        exact ih hnd'.2

theorem lookup_insertAll {α : Type} (F : List (String × α)) :
    ∀ (acc : List (String × α)) (k : String), (F.map Prod.fst).Nodup →
      (F.foldl dictInsert acc).lookup k = optOr (F.lookup k) (acc.lookup k) := by
  induction F with
  | nil =>
    intro acc k _
    rfl
  | cons p rest ih =>
    intro acc k hnd
    obtain ⟨a, b⟩ := p
    rw [List.map_cons] at hnd
    have hnd' := List.nodup_cons.mp hnd
    rw [List.foldl_cons, ih (dictInsert acc (a, b)) k hnd'.2,
      lookup_dictInsert, lookup_cons_ite]
    by_cases hk : k = a
    · rw [if_pos hk, if_pos hk]
      have hr : rest.lookup k = none := by
        apply lookup_none_of_forall
        intro q hq hc
        exact hnd'.1 (by
          rw [← hk, ← hc]
          exact List.mem_map.mpr ⟨q, hq, rfl⟩)
      rw [hr]
      rfl
    · rw [if_neg hk, if_neg hk]

theorem lookup_merge_consistent {α : Type} (Fs : List (List (String × α)))
    (D : List (String × α)) :
    ∀ (acc : List (String × α)) (k : String),
      (∀ F ∈ Fs, (F.map Prod.fst).Nodup) →
      (∀ F ∈ Fs, ∀ kk v, F.lookup kk = some v → D.lookup kk = some v) →
      (Fs.foldl (fun a F => F.foldl dictInsert a) acc).lookup k
        = if Fs.any (fun F => (F.lookup k).isSome) then D.lookup k
          else acc.lookup k := by
  induction Fs with
  | nil =>
    intro acc k _ _
    simp
  | cons F rest ih =>
    intro acc k hnd hcons
    rw [List.foldl_cons,
      ih (F.foldl dictInsert acc) k (fun G hG => hnd G (by simp [hG]))
        (fun G hG => hcons G (by simp [hG])),
      lookup_insertAll F acc k (hnd F (by simp)), List.any_cons]
    cases hrest : rest.any (fun G => (G.lookup k).isSome) with
    | true => simp [hrest]
    | false =>
      rw [if_neg (by simp [hrest])]
      cases hF : F.lookup k with
      | some v =>
        rw [if_pos (by simp [hF])]
        rw [hcons F (by simp) k v hF]
        rfl
      | none =>
        rw [if_neg (by simp [hF])]
        rfl

/-- C6: for per-run collections sharing one event dictionary (unique names)
and one relative-time grid, concatenating then selecting by label names
yields the same events, the same data tensor, and the same pruned
dictionary (as a Python dict, i.e. key-by-key) as selecting per run and
then concatenating, preserving run order. -/
theorem c6_concat_pick_commutes (L : List Epochs) (D : List (String × ℤ))
    (T : List ℚ) (keys : List String)
    (hne : L ≠ []) (_hkeys : keys ≠ [])
    (hD : ∀ e ∈ L, e.event_id = D)
    (_hT : ∀ e ∈ L, e.times = T)
    (hnd : (D.map Prod.fst).Nodup)
    (hlen : ∀ e ∈ L, e.data.length = e.events.length) :
    ((concatinate_epochs L).pick keys).events
        = (concatinate_epochs (L.map (fun e => e.pick keys))).events
    ∧ ((concatinate_epochs L).pick keys).data
        = (concatinate_epochs (L.map (fun e => e.pick keys))).data
    ∧ ∀ k : String, (((concatinate_epochs L).pick keys).event_id).lookup k
        = ((concatinate_epochs (L.map (fun e => e.pick keys))).event_id).lookup k := by
  have hDid : (concatinate_epochs L).event_id = D := by
    show mergeDicts (L.map Epochs.event_id) = D
    apply mergeDicts_const _ D ?_ ?_ hnd
    · intro hc
      rcases L with _ | ⟨x, xs⟩
      · exact hne rfl
      · simp at hc
    · intro d hd
      rcases List.mem_map.mp hd with ⟨run, hrun, hre⟩
      rw [← hre]
      exact hD run hrun
  have hmaskC : (concatinate_epochs L)._pmatch_event keys
      = ((L.map Epochs.events).flatten).map
          (fun ev => labelHit D keys ev.label) := by
    rw [pmatch_eq_map, hDid]
    rfl
  have hevC : ((concatinate_epochs L).pick keys).events
      = ((L.map Epochs.events).flatten).filter
          (fun ev => labelHit D keys ev.label) := by
    show maskFilter (concatinate_epochs L).events
      ((concatinate_epochs L)._pmatch_event keys) = _
    rw [hmaskC]
    exact maskFilter_map_self _ _
  have hevRun : ∀ e ∈ L, (e.pick keys).events
      = e.events.filter (fun ev => labelHit D keys ev.label) := by
    intro e he
    show maskFilter e.events (e._pmatch_event keys) = _
    rw [pmatch_eq_map, hD e he]
    exact maskFilter_map_self _ _
  have hdataRun : ∀ e ∈ L, (e.pick keys).data
      = maskFilter e.data
          (e.events.map (fun ev => labelHit D keys ev.label)) := by
    intro e he
    show maskFilter e.data (e._pmatch_event keys) = _
    rw [pmatch_eq_map, hD e he]
  refine ⟨?_, ?_, ?_⟩
  · rw [hevC, List.filter_flatten]
    show _ = ((L.map (fun e => e.pick keys)).map Epochs.events).flatten
    rw [List.map_map, List.map_map]
    congr 1
    apply List.map_congr_left
    intro e he
    exact (hevRun e he).symm
  · show maskFilter ((L.map Epochs.data).flatten)
      ((concatinate_epochs L)._pmatch_event keys) = _
    rw [hmaskC]
    have hflat : maskFilter ((L.map Epochs.data).flatten)
        (((L.map Epochs.events).flatten).map
          (fun ev => labelHit D keys ev.label))
        = (L.map (fun e => maskFilter e.data
            (e.events.map (fun ev => labelHit D keys ev.label)))).flatten :=
      maskFilter_flatten_by_events L _ hlen
    rw [hflat]
    show _ = ((L.map (fun e => e.pick keys)).map Epochs.data).flatten
    rw [List.map_map]
    congr 1
    apply List.map_congr_left
    intro e he
    exact (hdataRun e he).symm
  · intro k
    have hLdict : ((concatinate_epochs L).pick keys).event_id
        = D.filter (fun q =>
            ((L.map (fun e => e.events.filter
              (fun ev => labelHit D keys ev.label))).flatten).any
              (fun ev => ev.label == q.2)) := by
      show prune_event_id (concatinate_epochs L).event_id
        (((concatinate_epochs L).pick keys).events) = _
      rw [hDid, hevC, List.filter_flatten, List.map_map]
      rfl
    have hRdict : (concatinate_epochs (L.map (fun e => e.pick keys))).event_id
        = mergeDicts (L.map (fun e => D.filter (fun q =>
            (e.events.filter (fun ev => labelHit D keys ev.label)).any
              (fun ev => ev.label == q.2)))) := by
      show mergeDicts ((L.map (fun e => e.pick keys)).map Epochs.event_id) = _
      rw [List.map_map]
      congr 1
      apply List.map_congr_left
      intro e he
      show (e.pick keys).event_id = _
      show prune_event_id e.event_id ((e.pick keys).events) = _
      rw [hD e he, hevRun e he]
      rfl
    rw [hLdict, hRdict]
    rw [lookup_filter D _ k hnd]
    have hnds : ∀ F ∈ L.map (fun e => D.filter (fun q =>
        (e.events.filter (fun ev => labelHit D keys ev.label)).any
          (fun ev => ev.label == q.2))), (F.map Prod.fst).Nodup := by
      intro F hF
      rcases List.mem_map.mp hF with ⟨e, _, hFe⟩
      rw [← hFe]
      exact hnd.sublist (List.Sublist.map Prod.fst (List.filter_sublist D))
    have hcons : ∀ F ∈ L.map (fun e => D.filter (fun q =>
        (e.events.filter (fun ev => labelHit D keys ev.label)).any
          (fun ev => ev.label == q.2))),
        ∀ kk v, F.lookup kk = some v → D.lookup kk = some v := by
      intro F hF kk v hv
      rcases List.mem_map.mp hF with ⟨e, _, hFe⟩
      rw [← hFe, lookup_filter D _ kk hnd] at hv
      cases hDk : D.lookup kk with
      | none =>
        rw [hDk] at hv
        simp at hv
      | some w =>
        rw [hDk] at hv
        have hv' : (if ((e.events.filter
              (fun ev => labelHit D keys ev.label)).any
              (fun ev => ev.label == w)) = true
            then some w else (none : Option ℤ)) = some v := hv
        cases hq : ((e.events.filter
            (fun ev => labelHit D keys ev.label)).any
            (fun ev => ev.label == w)) with
        | true =>
          rw [hq, if_pos rfl] at hv'
          exact hv'
        | false =>
          rw [hq] at hv'
          simp at hv'
    rw [show mergeDicts (L.map (fun e => D.filter (fun q =>
        (e.events.filter (fun ev => labelHit D keys ev.label)).any
          (fun ev => ev.label == q.2))))
      = (L.map (fun e => D.filter (fun q =>
        (e.events.filter (fun ev => labelHit D keys ev.label)).any
          (fun ev => ev.label == q.2)))).foldl
          (fun a F => F.foldl dictInsert a) [] from rfl]
    rw [lookup_merge_consistent _ D [] k hnds hcons]
    cases hv : D.lookup k with
    | none =>
      cases hc : (L.map (fun e => D.filter (fun q =>
          (e.events.filter (fun ev => labelHit D keys ev.label)).any
            (fun ev => ev.label == q.2)))).any
          (fun F => (F.lookup k).isSome) with
      | true => simp [hc, hv]
      | false => simp [hc, hv]
    | some v =>
      have hcond : ((L.map (fun e => e.events.filter
            (fun ev => labelHit D keys ev.label))).flatten).any
            (fun ev => ev.label == v)
          = (L.map (fun e => D.filter (fun q =>
            (e.events.filter (fun ev => labelHit D keys ev.label)).any
              (fun ev => ev.label == q.2)))).any
            (fun F => (F.lookup k).isSome) := by
        rw [any_flatten, any_map_comp, any_map_comp]
        congr 1
        funext e
        rw [lookup_filter D _ k hnd, hv]
        show (e.events.filter (fun ev => labelHit D keys ev.label)).any
            (fun ev => ev.label == v)
          = (if (e.events.filter (fun ev => labelHit D keys ev.label)).any
              (fun ev => ev.label == (k, v).2) = true
            then some v else none).isSome
        cases hq : (e.events.filter (fun ev => labelHit D keys ev.label)).any
            (fun ev => ev.label == v) with
        | true => simp [hq]
        | false => simp [hq]
      show (if ((L.map (fun e => e.events.filter
            (fun ev => labelHit D keys ev.label))).flatten).any
            (fun ev => ev.label == v) = true
          then some v else (none : Option ℤ))
        = if (L.map (fun e => D.filter (fun q =>
            (e.events.filter (fun ev => labelHit D keys ev.label)).any
              (fun ev => ev.label == q.2)))).any
            (fun F => (F.lookup k).isSome) = true
          then some v else List.lookup k []
      rw [hcond]
      cases hc : (L.map (fun e => D.filter (fun q =>
          (e.events.filter (fun ev => labelHit D keys ev.label)).any
            (fun ev => ev.label == q.2)))).any
          (fun F => (F.lookup k).isSome) with
      | true => rfl
      | false => rfl

unseal Rat.add Rat.mul Rat.inv Rat.sub in
/-- Concrete instantiation of the concatenation/selection commutation on a
two-run list sharing one dictionary. -/
theorem c6_concat_pick_commutes_witness :
    ((concatinate_epochs [epC3, epC6b]).pick ["Physical"]).events
        = (concatinate_epochs ([epC3, epC6b].map (fun e => e.pick ["Physical"]))).events
    ∧ ((concatinate_epochs [epC3, epC6b]).pick ["Physical"]).data
        = (concatinate_epochs ([epC3, epC6b].map (fun e => e.pick ["Physical"]))).data
    ∧ ∀ k : String, (((concatinate_epochs [epC3, epC6b]).pick ["Physical"]).event_id).lookup k
        = ((concatinate_epochs ([epC3, epC6b].map
            (fun e => e.pick ["Physical"]))).event_id).lookup k :=
  c6_concat_pick_commutes [epC3, epC6b]
    [("Physical/Left", 1), ("Physical/Right", 2), ("Mental/Left", 3)] [0] ["Physical"]
    (by decide) (by decide) (by decide) (by decide) (by decide) (by decide)
